import Mathlib

/-! # Bismuth runtime (`example.c`): a shallow embedding and its verification

The C file is the output of the Bismuth compiler together with its prelude.
The embedding keeps the C program's shape:

* memory is a list of blocks (one block per `malloc` call or static object),
  a block is a list of cells, a cell holds one scalar (`Val`);
  a pointer is a block number and a cell offset;
* `size_t` is 64 bits wide, `int` is 32 bits wide, `sizeof(void*)` is 8 (LP64);
  arithmetic on them is written on `Nat`/`Int` with explicit reduction;
* `malloc` always succeeds and returns a fresh block holding exactly the
  requested number of bytes (allocation failure is outside the specification);
  nothing is ever freed;
* an invalid memory access is `none` / `Outcome.fault` (undefined behaviour);
* calls through a function pointer go through `call`, which is driven by fuel.
-/

namespace Bismuth

/-! ## Values, memory, state -/

/-- Native entry points: the C functions whose address the program takes. -/
inductive Fn where
  | user_func_str
  | user_func_main
  | print_declare_builtin
  | show_declare_builtin
  | at_declare_builtin
  | appendArray_declare_builtin
  | appendString_declare_builtin
  | length_declare_builtin
  | less_declare_builtin
  | add_declare_builtin
  | iface_ToString_method_str_extract
  | iface_ToString_inst_Pair_method_str_impl
  deriving DecidableEq, Repr

/-- Scalar contents of one memory cell (or of a C local variable). -/
inductive Val where
  /-- indeterminate content of freshly allocated storage -/
  | undef
  /-- the null pointer, written `0` in the source -/
  | null
  /-- an `int` -/
  | int (value : Int)
  /-- a `size_t` -/
  | size (value : Nat)
  /-- a `char` -/
  | byte (c : Nat)
  /-- a pointer to cell `off` of block `blk` -/
  | ptr (blk : Nat) (off : Nat)
  /-- a function pointer -/
  | fn (f : Fn)
  deriving DecidableEq, Repr

/-- Global variables of type `struct bismuth_function*`: the callable slots of
the generated program, in declaration order, then the `_bv_` variables the
prelude declares (the program neither assigns nor reads these). -/
inductive Glob where
  | r1007_str
  | r1009_main
  | r1003_print
  | r1011_at
  | r1012_appendArray
  | r1001_appendString
  | r1013_length
  | r1014_show
  | r1015_less
  | r1016_add
  | r1004_str
  | _bv_print
  | _bv_at
  | _bv_appendArray
  | _bv_appendString
  | _bv_length
  | _bv_less
  | _bv_add
  deriving DecidableEq, Repr

/-- Program state: heap blocks, bytes written to standard output, the global
slots and the log of assignments made to them (most recent last). -/
structure State where
  heap : List (List Val)
  out : List Nat
  globals : Glob → Val
  gwrites : List Glob

/-- Result of running a piece of code. -/
inductive Outcome (α : Type) where
  /-- normal return -/
  | ret (v : α) (st : State)
  /-- the process was terminated by `exit(code)` -/
  | exit (code : Int) (st : State)
  /-- undefined behaviour (invalid memory access, call of a non-function) -/
  | fault
  /-- the fuel of `call` ran out -/
  | timeout

/-- Width of `size_t` in bits. -/
def SIZE_WIDTH : Nat := 64

/-- Width of `int` in bits. -/
def INT_WIDTH : Nat := 32

/-- The value of `sizeof(void*)`. -/
def sizeof_ptr : Nat := 8

/-- Reduction of a natural number to `size_t`. -/
def to_size (n : Nat) : Nat := n % 2 ^ SIZE_WIDTH

/-- Conversion to `int`: reduction modulo `2 ^ 32` into the signed range
(what GCC and Clang define for out-of-range conversions). -/
def to_int (n : Int) : Int :=
  (n + 2 ^ (INT_WIDTH - 1)) % 2 ^ INT_WIDTH - 2 ^ (INT_WIDTH - 1)

/-- Conversion of an `int` to `size_t`, written `(size_t)(x)` in the source. -/
def size_of_int (n : Int) : Nat := (n % 2 ^ SIZE_WIDTH).toNat

/-- Pointer arithmetic `p + k` in units of cells. -/
def ptrAdd (p : Val) (k : Nat) : Val :=
  match p with
  | Val.ptr b o => Val.ptr b (o + k)
  | _ => Val.undef

/-- Read the cell a pointer designates. -/
def load (st : State) (p : Val) : Option Val :=
  match p with
  | Val.ptr b o =>
    match st.heap.get? b with
    | some blk => blk.get? o
    | none => none
  | _ => none

/-- Write the cell a pointer designates. -/
def store (st : State) (p : Val) (v : Val) : Option State :=
  match p with
  | Val.ptr b o =>
    match st.heap.get? b with
    | some blk =>
      if o < blk.length then some { st with heap := st.heap.set b (blk.set o v) } else none
    | none => none
  | _ => none

/-- Allocation of a fresh block of `cells` indeterminate cells; the pointer
returned points to its first cell. -/
def alloc (st : State) (cells : Nat) : Val × State :=
  (Val.ptr st.heap.length 0,
   { st with heap := st.heap ++ [List.replicate cells Val.undef] })

/-- The call `malloc(sizeof(struct T))` for a struct `T` of `fields` scalar
members: a fresh block with one cell per member. -/
def malloc_struct (st : State) (fields : Nat) : Val × State :=
  alloc st fields

/-- The call `malloc(bytes)` for storage used as an array of cells of
`cellSize` bytes each: a fresh block of `bytes / cellSize` cells. -/
def malloc (st : State) (bytes : Nat) (cellSize : Nat) : Val × State :=
  alloc st (bytes / cellSize)

/-- The cells of the object a pointer points into, from the pointer on. -/
def cells_from (st : State) (p : Val) : List Val :=
  match p with
  | Val.ptr b o =>
    match st.heap.get? b with
    | some blk => blk.drop o
    | none => []
  | _ => []

/-- The bytes of a string literal. -/
def bytes (s : String) : List Nat := s.toList.map Char.toNat

/-- The NUL-terminated string that starts a list of cells; `none` when the
cells end (or hold something other than a `char`) before a NUL is met. -/
def c_string_cells : List Val → Option (List Nat)
  | [] => none
  | Val.byte c :: rest =>
    if c = 0 then some [] else (c_string_cells rest).map (fun s => c :: s)
  | _ :: _ => none

/-- The NUL-terminated string a `char*` points to (the `%s` conversion). -/
def c_string (st : State) (p : Val) : Option (List Nat) :=
  c_string_cells (cells_from st p)

/-- The `%lu` conversion: decimal digits. -/
def fmt_lu (n : Nat) : List Nat := (Nat.toDigits 10 n).map Char.toNat

/-- The `%d` conversion: a minus sign for negative numbers, then decimal digits. -/
def fmt_d (i : Int) : List Nat :=
  if i < 0 then 45 :: fmt_lu (-i).toNat else fmt_lu i.toNat

/-- Lift a computation that cannot exit: `none` is undefined behaviour. -/
def Outcome.ofOption {α : Type} : Option (α × State) → Outcome α
  | some (v, st) => Outcome.ret v st
  | none => Outcome.fault

/-- Assignment to a global slot. -/
def setGlobal (st : State) (g : Glob) (v : Val) : State :=
  { st with globals := Function.update st.globals g v, gwrites := st.gwrites ++ [g] }

/-- The loop `for (size_t i = 0; i < n; i++) body`, where `n` is the value of
the bound on entry (in every use below the body stores only into a block that
was allocated after the bound's storage, so the bound does not change). -/
def forLoop (n : Nat) (body : Nat → State → Option State) (st : State) : Option State :=
  (List.range n).foldlM (fun s i => body i s) st

/-! ## Prelude: constructors -/

/-- Number of cells of `struct bismuth_vector`: `items`, `length`. -/
def cells_bismuth_vector : Nat := 2

/-- Source: `_make_bismuth_int`. -/
def _make_bismuth_int (value : Int) (st : State) : Option (Val × State) := do
  let (result, st) := malloc_struct st 1
  let st ← store st result (Val.int value)
  pure (result, st)

/-- Source: `_make_bismuth_bool`. -/
def _make_bismuth_bool (value : Int) (st : State) : Option (Val × State) := do
  let (result, st) := malloc_struct st 1
  let st ← store st result (Val.int value)
  pure (result, st)

/-- Source: `_make_bismuth_nil`. -/
def _make_bismuth_nil (st : State) : Option (Val × State) := do
  let (result, st) := malloc_struct st cells_bismuth_vector
  let st ← store st result Val.null
  let st ← store st (ptrAdd result 1) (Val.size 0)
  pure (result, st)

/-- Source: `_make_bismuth_cons`. -/
def _make_bismuth_cons (head tail : Val) (st : State) : Option (Val × State) := do
  let tail_vector := tail
  let (result, st) := malloc_struct st cells_bismuth_vector
  let Val.size tail_length ← load st (ptrAdd tail_vector 1) | none
  let st ← store st (ptrAdd result 1) (Val.size (to_size (tail_length + 1)))
  let Val.size result_length ← load st (ptrAdd result 1) | none
  let (items, st) := malloc st (to_size (sizeof_ptr * result_length)) sizeof_ptr
  let st ← store st result items
  let st ← forLoop tail_length (fun i st => do
      let tail_items ← load st tail_vector
      let x ← load st (ptrAdd tail_items i)
      let result_items ← load st result
      store st (ptrAdd result_items (i + 1)) x) st
  let result_items ← load st result
  let st ← store st (ptrAdd result_items 0) head
  pure (result, st)

/-- Source: `_make_bismuth_snoc`. -/
def _make_bismuth_snoc (init last : Val) (st : State) : Option (Val × State) := do
  let init_vector := init
  let (result, st) := malloc_struct st cells_bismuth_vector
  let Val.size init_length ← load st (ptrAdd init_vector 1) | none
  let st ← store st (ptrAdd result 1) (Val.size (to_size (init_length + 1)))
  let Val.size result_length ← load st (ptrAdd result 1) | none
  let (items, st) := malloc st (to_size (sizeof_ptr * result_length)) sizeof_ptr
  let st ← store st result items
  let st ← forLoop init_length (fun i st => do
      let init_items ← load st init_vector
      let x ← load st (ptrAdd init_items i)
      let result_items ← load st result
      store st (ptrAdd result_items i) x) st
  let result_items ← load st result
  let Val.size init_length ← load st (ptrAdd init_vector 1) | none
  let st ← store st (ptrAdd result_items init_length) last
  pure (result, st)

/-- Source: `_make_bismuth_unit`. -/
def _make_bismuth_unit : Val := Val.null

/-! ## Prelude: built-ins -/

/-- Source: `print_declare_builtin`. -/
def print_declare_builtin (self line : Val) (st : State) : Option (Val × State) := do
  let _ := self
  let s ← c_string st line
  let st := { st with out := st.out ++ (s ++ bytes "\n") }
  pure (_make_bismuth_unit, st)

/-- Source: `show_declare_builtin`. -/
def show_declare_builtin (st : State) : Option (Val × State) :=
  pure (Val.null, st)

/-- Source: `at_declare_builtin`. -/
def at_declare_builtin (self array index : Val) (st : State) : Outcome Val :=
  let _ := self
  let vector_array := array
  let int_index := index
  match load st int_index, load st (ptrAdd vector_array 1) with
  | some (Val.int index_value), some (Val.size array_length) =>
    if index_value < 0 ∨ size_of_int index_value ≥ array_length then
      Outcome.exit 1 { st with out := st.out ++
        (bytes "out-of-bounds index; index " ++ fmt_d index_value ++
         bytes " in array of length " ++ fmt_lu array_length ++ bytes "\n") }
    else
      match load st vector_array with
      | some items =>
        match load st (ptrAdd items index_value.toNat) with
        | some x => Outcome.ret x st
        | none => Outcome.fault
      | none => Outcome.fault
  | _, _ => Outcome.fault

/-- Source: `appendArray_declare_builtin`. -/
def appendArray_declare_builtin (self first second : Val) (st : State) :
    Option (Val × State) := do
  let _ := self
  let first_vector := first
  let second_vector := second
  let (result, st) := malloc_struct st cells_bismuth_vector
  let Val.size first_length ← load st (ptrAdd first_vector 1) | none
  let Val.size second_length ← load st (ptrAdd second_vector 1) | none
  let st ← store st (ptrAdd result 1) (Val.size (to_size (first_length + second_length)))
  let Val.size result_length ← load st (ptrAdd result 1) | none
  let (items, st) := malloc st (to_size (sizeof_ptr * result_length)) sizeof_ptr
  let st ← store st result items
  let st ← forLoop first_length (fun i st => do
      let first_items ← load st first_vector
      let x ← load st (ptrAdd first_items i)
      let result_items ← load st result
      store st (ptrAdd result_items i) x) st
  let st ← forLoop second_length (fun i st => do
      let second_items ← load st second_vector
      let x ← load st (ptrAdd second_items i)
      let result_items ← load st result
      store st (ptrAdd result_items (to_size (i + first_length))) x) st
  pure (result, st)

/-- The loop `for (const char* c = s; *c; ++c) comb_len++;` run on the cells
from `s` on; `none` when `c` leaves its object before a NUL is met. -/
def count_loop : List Val → Nat → Option Nat
  | [], _ => none
  | Val.byte ch :: rest, comb_len =>
    if ch = 0 then some comb_len else count_loop rest (to_size (comb_len + 1))
  | _ :: _, _ => none

/-- The loop `for (const char* c = s; *c; ++c) *o++ = *c;` run on the cells
from `s` on as they are on entry (the stores go to the block of `o`, which is
allocated after the object of `s`); returns the final `o`. -/
def copy_loop : List Val → Val → State → Option (Val × State)
  | [], _, _ => none
  | Val.byte ch :: rest, o, st =>
    if ch = 0 then some (o, st) else do
      let st ← store st o (Val.byte ch)
      copy_loop rest (ptrAdd o 1) st
  | _ :: _, _, _ => none

/-- Source: `appendString_declare_builtin`. -/
def appendString_declare_builtin (self first second : Val) (st : State) :
    Option (Val × State) := do
  let _ := self
  let first_string := first
  let second_string := second
  let comb_len := 0
  let comb_len ← count_loop (cells_from st first_string) comb_len
  let comb_len ← count_loop (cells_from st second_string) comb_len
  let (str, st) := malloc st (to_size (comb_len + 1)) 1
  let o := str
  let (o, st) ← copy_loop (cells_from st first_string) o st
  let (o, st) ← copy_loop (cells_from st second_string) o st
  let st ← store st o (Val.byte 0)
  pure (str, st)

/-- Source: `length_declare_builtin`. -/
def length_declare_builtin (self array : Val) (st : State) : Option (Val × State) := do
  let _ := self
  let array_vector := array
  let Val.size array_length ← load st (ptrAdd array_vector 1) | none
  _make_bismuth_int (to_int array_length) st

/-- Source: `less_declare_builtin`. -/
def less_declare_builtin (self x y : Val) (st : State) : Option (Val × State) := do
  let _ := self
  let x_int := x
  let y_int := y
  let Val.int x_value ← load st x_int | none
  let Val.int y_value ← load st y_int | none
  _make_bismuth_bool (if x_value < y_value then 1 else 0) st

/-- Source: `add_declare_builtin`. The `int` addition is the machine addition
of the target: the sum reduced to `int` by two's-complement wraparound (ISO C
leaves the overflowing case undefined). -/
def add_declare_builtin (self x y : Val) (st : State) : Option (Val × State) := do
  let _ := self
  let x_int := x
  let y_int := y
  let Val.int x_value ← load st x_int | none
  let Val.int y_value ← load st y_int | none
  _make_bismuth_int (to_int (x_value + y_value)) st

/-! ## Generated program -/

/-- The call `((struct bismuth_function*)callee)->func(args...)`, also the call
`((struct iface_ToString*)callee)->str(args...)`: the function pointer is the
first cell of the object. -/
def call_func (invoke : Fn → List Val → State → Outcome Val)
    (callee : Val) (args : List Val) (st : State) : Outcome Val :=
  match load st callee with
  | some (Val.fn f) => invoke f args st
  | _ => Outcome.fault

/-- Static storage of the string literal `"xyz"`. -/
def lit_xyz : Val := Val.ptr 0 0

/-- Static storage of the string literal `"abc"`. -/
def lit_abc : Val := Val.ptr 1 0

/-- The state in which `main` starts: the two string literals, empty output,
all global slots null. -/
def initial : State :=
  { heap := [(bytes "xyz").map Val.byte ++ [Val.byte 0],
             (bytes "abc").map Val.byte ++ [Val.byte 0]],
    out := [],
    globals := fun _ => Val.null,
    gwrites := [] }

/-- Source: `user_func_str`. -/
def user_func_str (invoke : Fn → List Val → State → Outcome Val)
    (r1008_ignore_self r1002_p : Val) (st : State) : Outcome Val :=
  let _ := r1008_ignore_self
  let r1023 := st.globals Glob.r1001_appendString
  let r1025 := r1002_p
  match load st r1025 with
  | none => Outcome.fault
  | some r1024 =>
    let r1027 := r1002_p
    match load st (ptrAdd r1027 1) with
    | none => Outcome.fault
    | some r1026 =>
      let r1028 := st.globals Glob.r1001_appendString
      call_func invoke r1028 [r1023, r1024, r1026] st

/-- Source: `iface_ToString_method_str_extract`. -/
def iface_ToString_method_str_extract (invoke : Fn → List Val → State → Outcome Val)
    (r1017_literallySelf r1018_selfConstraint r1019_forward_arg : Val) (st : State) :
    Outcome Val :=
  let _ := r1017_literallySelf
  let r1062 := r1018_selfConstraint
  let r1063 := r1019_forward_arg
  let r1064 := r1018_selfConstraint
  call_func invoke r1064 [r1062, r1063] st

/-- Source: `iface_ToString_inst_Pair_create`. -/
def iface_ToString_inst_Pair_create (st : State) : Option (Val × State) := do
  let (r1068, st) := malloc_struct st 1
  let r1069 := Val.fn Fn.iface_ToString_inst_Pair_method_str_impl
  let st ← store st r1068 r1069
  pure (r1068, st)

/-- Source: `iface_ToString_inst_Pair_method_str_impl`. -/
def iface_ToString_inst_Pair_method_str_impl (invoke : Fn → List Val → State → Outcome Val)
    (r1006_self_bundle r1002_p : Val) (st : State) : Outcome Val :=
  let _ := r1006_self_bundle
  let r1072 := st.globals Glob.r1001_appendString
  let r1074 := r1002_p
  match load st r1074 with
  | none => Outcome.fault
  | some r1073 =>
    let r1076 := r1002_p
    match load st (ptrAdd r1076 1) with
    | none => Outcome.fault
    | some r1075 =>
      let r1077 := st.globals Glob.r1001_appendString
      call_func invoke r1077 [r1072, r1073, r1075] st

/-- Source: `user_func_main`. -/
def user_func_main (invoke : Fn → List Val → State → Outcome Val)
    (r1010_ignore_self : Val) (st : State) : Outcome Val :=
  let _ := r1010_ignore_self
  let r1033 := st.globals Glob.r1003_print
  let r1035 := st.globals Glob.r1004_str
  match iface_ToString_inst_Pair_create st with
  | none => Outcome.fault
  | some (r1036, st) =>
    let (r1037, st) := malloc_struct st 2
    let r1038 := lit_xyz
    match store st (ptrAdd r1037 1) r1038 with
    | none => Outcome.fault
    | some st =>
      let r1039 := lit_abc
      match store st r1037 r1039 with
      | none => Outcome.fault
      | some st =>
        let r1040 := st.globals Glob.r1004_str
        match call_func invoke r1040 [r1035, r1036, r1037] st with
        | Outcome.ret r1034 st =>
          let r1041 := st.globals Glob.r1003_print
          match call_func invoke r1041 [r1033, r1034] st with
          | Outcome.ret _ st =>
            let r1042 := Val.null
            Outcome.ret r1042 st
          | other => other
        | other => other

/-- Argument `i` of a call; a parameter the caller passed nothing for is
indeterminate. -/
def arg (args : List Val) (i : Nat) : Val := args.getD i Val.undef

/-- Call of a native entry point with the given arguments. Each level of
nesting of calls uses one unit of fuel. -/
def call : Nat → Fn → List Val → State → Outcome Val
  | 0, _, _, _ => Outcome.timeout
  | fuel + 1, f, args, st =>
    match f with
    | Fn.user_func_str => user_func_str (call fuel) (arg args 0) (arg args 1) st
    | Fn.user_func_main => user_func_main (call fuel) (arg args 0) st
    | Fn.print_declare_builtin =>
      Outcome.ofOption (print_declare_builtin (arg args 0) (arg args 1) st)
    | Fn.show_declare_builtin => Outcome.ofOption (show_declare_builtin st)
    | Fn.at_declare_builtin => at_declare_builtin (arg args 0) (arg args 1) (arg args 2) st
    | Fn.appendArray_declare_builtin =>
      Outcome.ofOption (appendArray_declare_builtin (arg args 0) (arg args 1) (arg args 2) st)
    | Fn.appendString_declare_builtin =>
      Outcome.ofOption (appendString_declare_builtin (arg args 0) (arg args 1) (arg args 2) st)
    | Fn.length_declare_builtin =>
      Outcome.ofOption (length_declare_builtin (arg args 0) (arg args 1) st)
    | Fn.less_declare_builtin =>
      Outcome.ofOption (less_declare_builtin (arg args 0) (arg args 1) (arg args 2) st)
    | Fn.add_declare_builtin =>
      Outcome.ofOption (add_declare_builtin (arg args 0) (arg args 1) (arg args 2) st)
    | Fn.iface_ToString_method_str_extract =>
      iface_ToString_method_str_extract (call fuel) (arg args 0) (arg args 1) (arg args 2) st
    | Fn.iface_ToString_inst_Pair_method_str_impl =>
      iface_ToString_inst_Pair_method_str_impl (call fuel) (arg args 0) (arg args 1) st

/-- One linkage step of `main`: allocate a `struct bismuth_function`, store the
entry point in its `func` field, assign the object to the global slot. -/
def link (g : Glob) (f : Fn) (st : State) : Option State := do
  let (r, st) := malloc_struct st 1
  let st ← store st r (Val.fn f)
  pure (setGlobal st g r)

/-- The linkage part of `main`: everything before the `entry point` comment. -/
def linkage (st : State) : Option State := do
  let st ← link Glob.r1007_str Fn.user_func_str st
  let st ← link Glob.r1009_main Fn.user_func_main st
  let st ← link Glob.r1003_print Fn.print_declare_builtin st
  let st ← link Glob.r1011_at Fn.at_declare_builtin st
  let st ← link Glob.r1012_appendArray Fn.appendArray_declare_builtin st
  let st ← link Glob.r1001_appendString Fn.appendString_declare_builtin st
  let st ← link Glob.r1013_length Fn.length_declare_builtin st
  let st ← link Glob.r1014_show Fn.show_declare_builtin st
  let st ← link Glob.r1015_less Fn.less_declare_builtin st
  let st ← link Glob.r1016_add Fn.add_declare_builtin st
  let st ← link Glob.r1004_str Fn.iface_ToString_method_str_extract st
  pure st

/-- Source: `main`. The value returned is the exit status: reaching the end of
`main` returns 0. -/
def main (fuel : Nat) (st : State) : Outcome Int :=
  match linkage st with
  | none => Outcome.fault
  | some st =>
    match call_func (call fuel) (st.globals Glob.r1009_main) [] st with
    | Outcome.ret _ st => Outcome.ret 0 st
    | Outcome.exit code st => Outcome.exit code st
    | Outcome.fault => Outcome.fault
    | Outcome.timeout => Outcome.timeout

/-! ## Abstraction: the sequence a vector object represents -/

/-- The object `p` points to is a `struct bismuth_vector` representing the
sequence `xs`: its `length` field (a `size_t`) holds the number of elements of
`xs` and cell `i` of its `items` array holds element `i` of `xs`. -/
def IsSeq (st : State) (p : Val) (xs : List Val) : Prop :=
  xs.length < 2 ^ SIZE_WIDTH ∧
  load st (ptrAdd p 1) = some (Val.size xs.length) ∧
  ∃ items, load st p = some items ∧
    ∀ i, i < xs.length → load st (ptrAdd items i) = xs[i]?

/-- An array into which the first `i` elements of `xs` have been copied, the
remaining cells being indeterminate. -/
def filled (xs : List Val) (i : Nat) : List Val :=
  xs.take i ++ List.replicate (xs.length - i) Val.undef

/-- The values an `int` can hold. -/
def IsInt (i : Int) : Prop := -(2 ^ (INT_WIDTH - 1)) ≤ i ∧ i < 2 ^ (INT_WIDTH - 1)

/-- The text `printf` produces in the failing branch of `at_declare_builtin`
for index `i` and length `n`. -/
def oob_message (i : Int) (n : Nat) : List Nat :=
  bytes "out-of-bounds index; index " ++ fmt_d i ++
    bytes " in array of length " ++ fmt_lu n ++ bytes "\n"

/-- Calling `at_declare_builtin` on the sequence `s` with any boxed `int`
holding `i` returns `x` normally and leaves the state as it is. -/
def AtReturns (st : State) (s : Val) (i : Int) (x : Val) : Prop :=
  ∀ self ix, load st ix = some (Val.int i) →
    at_declare_builtin self s ix st = Outcome.ret x st

/-- Every cell that can be read in `st` reads the same in `st2`. -/
def Unchanged (st st2 : State) : Prop :=
  ∀ p v, load st p = some v → load st2 p = some v

/-- The pointer `r` is a pointer into a block that `st` does not have (a block
allocated after `st`), so that no cell of `st` can be read through it. -/
def NewObject (st : State) (r : Val) : Prop :=
  (∃ b o, r = Val.ptr b o ∧ st.heap.length ≤ b) ∧
  ∀ k, load st (ptrAdd r k) = none

/-- A state for trying the sequence operations: boxed ints 0, 1 and 5 and a
vector of two elements (pointers to the boxes of 0 and of 1). -/
def sample : State :=
  { heap := [[Val.int 0], [Val.int 1], [Val.int 5],
             [Val.ptr 4 0, Val.size 2], [Val.ptr 0 0, Val.ptr 1 0]],
    out := [],
    globals := fun _ => Val.null,
    gwrites := [] }

/-- The vector of `sample`. -/
def sample_vec : Val := Val.ptr 3 0

/-- A state for trying dispatch: the two string literals, a callable wrapping
`appendString_declare_builtin` bound to the slot `r1001_appendString`, and the
Pair `{x: "abc", y: "xyz"}` (block 3). -/
def dispatch_sample : State :=
  { heap := initial.heap ++
      [[Val.fn Fn.appendString_declare_builtin], [lit_abc, lit_xyz]],
    out := [],
    globals := fun g => if g = Glob.r1001_appendString then Val.ptr 2 0 else Val.null,
    gwrites := [Glob.r1001_appendString] }

/-- The largest `int`. -/
def INT_MAX : Int := 2 ^ (INT_WIDTH - 1) - 1

/-- The vector `s` of state `st` was obtained from `_make_bismuth_nil` by
prepend, append and concat operations, and `xs` are the elements these
operations put into it, in order. A vector built in one state is still one
after further allocations (`keep`). -/
inductive Built : State → Val → List Val → Prop where
  | nil (st st2 : State) (s : Val) :
      _make_bismuth_nil st = some (s, st2) → Built st2 s []
  | cons (st st2 : State) (v t s : Val) (xs : List Val) :
      Built st t xs → _make_bismuth_cons v t st = some (s, st2) → Built st2 s (v :: xs)
  | snoc (st st2 : State) (t v s : Val) (xs : List Val) :
      Built st t xs → _make_bismuth_snoc t v st = some (s, st2) → Built st2 s (xs ++ [v])
  | concat (st st2 : State) (self a b s : Val) (xs ys : List Val) :
      Built st a xs → Built st b ys →
      appendArray_declare_builtin self a b st = some (s, st2) → Built st2 s (xs ++ ys)
  | keep (st st2 : State) (s : Val) (xs : List Val) (E : List (List Val)) :
      Built st s xs → st2.heap = st.heap ++ E → Built st2 s xs

/-- The one-element sequence `[unit]` (unit prepended to the empty sequence)
after `k` rounds of concatenating the sequence with itself: `2 ^ k` elements. -/
def doubled : Nat → State → Option (Val × State)
  | 0, st => do
    let (e, st) ← _make_bismuth_nil st
    _make_bismuth_cons _make_bismuth_unit e st
  | k + 1, st => do
    let (s, st) ← doubled k st
    appendArray_declare_builtin Val.null s s st

/-- A state for trying the arithmetic built-ins: boxed ints 2, 3 and 5
(blocks 0, 1 and 2). -/
def int_sample : State :=
  { heap := [[Val.int 2], [Val.int 3], [Val.int 5]],
    out := [],
    globals := fun _ => Val.null,
    gwrites := [] }

/-- The entry point each callable slot of the generated program is declared
for: the user function, built-in or interface method of the same name. The
`_bv_` variables of the prelude have none. -/
def entry_of : Glob → Option Fn
  | Glob.r1007_str => some Fn.user_func_str
  | Glob.r1009_main => some Fn.user_func_main
  | Glob.r1003_print => some Fn.print_declare_builtin
  | Glob.r1011_at => some Fn.at_declare_builtin
  | Glob.r1012_appendArray => some Fn.appendArray_declare_builtin
  | Glob.r1001_appendString => some Fn.appendString_declare_builtin
  | Glob.r1013_length => some Fn.length_declare_builtin
  | Glob.r1014_show => some Fn.show_declare_builtin
  | Glob.r1015_less => some Fn.less_declare_builtin
  | Glob.r1016_add => some Fn.add_declare_builtin
  | Glob.r1004_str => some Fn.iface_ToString_method_str_extract
  | _ => none

/-- The loop of `copy_loop`, also recording the destination of every store it
makes, in order, at the end of `log`. -/
def copy_loop_log : List Val → Val → State → List Val → Option (Val × State × List Val)
  | [], _, _, _ => none
  | Val.byte ch :: rest, o, st, log =>
    if ch = 0 then some (o, st, log) else do
      let st ← store st o (Val.byte ch)
      copy_loop_log rest (ptrAdd o 1) st (log ++ [o])
  | _ :: _, _, _, _ => none

/-- The statements of `appendString_declare_builtin`, also returning the
destinations of all the stores made into the buffer, in order. -/
def appendString_log (self first second : Val) (st : State) :
    Option (Val × State × List Val) := do
  let _ := self
  let first_string := first
  let second_string := second
  let comb_len := 0
  let comb_len ← count_loop (cells_from st first_string) comb_len
  let comb_len ← count_loop (cells_from st second_string) comb_len
  let (str, st) := malloc st (to_size (comb_len + 1)) 1
  let o := str
  let (o, st, log) ← copy_loop_log (cells_from st first_string) o st []
  let (o, st, log) ← copy_loop_log (cells_from st second_string) o st log
  let st ← store st o (Val.byte 0)
  pure (str, st, log ++ [o])

/-- The state `sample` with two more vectors: the one-element sequence holding
`Val.ptr 2 0` (header in block 5) and the one holding `Val.ptr 1 0` (header in
block 7). -/
def algebra_sample : State :=
  { heap := sample.heap ++
      [[Val.ptr 6 0, Val.size 1], [Val.ptr 2 0], [Val.ptr 8 0, Val.size 1], [Val.ptr 1 0]],
    out := [],
    globals := fun _ => Val.null,
    gwrites := [] }

/-! ## Memory lemmas -/

theorem forLoop_states (n : Nat) (body : Nat → State → Option State) (f : Nat → State)
    (s0 : State) (h0 : f 0 = s0)
    (h : ∀ i, i < n → body i (f i) = some (f (i + 1))) :
    forLoop n body s0 = some (f n) := by
  subst h0
  induction n with
  | zero => simp [forLoop]
  | succ k ih =>
    have ih2 := ih (fun i hi => h i (Nat.lt_succ_of_lt hi))
    unfold forLoop at ih2 ⊢
    rw [List.range_succ, List.foldlM_append, ih2]
    simp [h k (Nat.lt_succ_self k)]

theorem load_ext {st st2 : State} {p v : Val} (E : List (List Val))
    (hh : st2.heap = st.heap ++ E) (h : load st p = some v) : load st2 p = some v := by
  cases p <;> simp [load] at h ⊢
  rename_i b o
  rw [hh]
  cases hb : st.heap[b]? with
  | none => simp [hb] at h
  | some blk =>
    have hlt : b < st.heap.length := by
      rcases List.getElem?_eq_some_iff.mp hb with ⟨hlt, _⟩; exact hlt
    rw [List.getElem?_append_left hlt, hb]
    simpa [hb] using h

theorem load_old {st : State} {p v : Val} (E : List (List Val)) (out : List Nat)
    (g : Glob → Val) (w : List Glob) (h : load st p = some v) :
    load (State.mk (st.heap ++ E) out g w) p = some v :=
  load_ext E rfl h

theorem get_new0 (H : List (List Val)) (a : List Val) (E : List (List Val)) :
    (H ++ a :: E)[H.length]? = some a := by
  rw [List.getElem?_append_right (le_refl _)]
  simp

theorem get_new1 (H : List (List Val)) (a b : List Val) (E : List (List Val)) :
    (H ++ a :: b :: E)[H.length + 1]? = some b := by
  rw [List.getElem?_append_right (by omega)]
  simp

theorem set_new0 (H : List (List Val)) (a x : List Val) (E : List (List Val)) :
    (H ++ a :: E).set H.length x = H ++ x :: E := by
  rw [List.set_append_right _ _ (le_refl _)]
  simp

theorem set_new1 (H : List (List Val)) (a b x : List Val) (E : List (List Val)) :
    (H ++ a :: b :: E).set (H.length + 1) x = H ++ a :: x :: E := by
  rw [List.set_append_right _ _ (by omega)]
  simp

theorem load_new0 (H : List (List Val)) (a : List Val) (E : List (List Val)) (out : List Nat)
    (g : Glob → Val) (w : List Glob) (o : Nat) :
    load (State.mk (H ++ a :: E) out g w) (Val.ptr H.length o) = a[o]? := by
  unfold load; simp only [List.get?_eq_getElem?, get_new0]

theorem load_new1 (H : List (List Val)) (a b : List Val) (E : List (List Val)) (out : List Nat)
    (g : Glob → Val) (w : List Glob) (o : Nat) :
    load (State.mk (H ++ a :: b :: E) out g w) (Val.ptr (H.length + 1) o) = b[o]? := by
  unfold load; simp only [List.get?_eq_getElem?, get_new1]

theorem store_new0 (H : List (List Val)) (a : List Val) (E : List (List Val)) (out : List Nat)
    (g : Glob → Val) (w : List Glob) (o : Nat) (v : Val) :
    store (State.mk (H ++ a :: E) out g w) (Val.ptr H.length o) v =
      if o < a.length then some (State.mk (H ++ a.set o v :: E) out g w) else none := by
  unfold store; simp only [List.get?_eq_getElem?, get_new0, set_new0]

theorem store_new1 (H : List (List Val)) (a b : List Val) (E : List (List Val)) (out : List Nat)
    (g : Glob → Val) (w : List Glob) (o : Nat) (v : Val) :
    store (State.mk (H ++ a :: b :: E) out g w) (Val.ptr (H.length + 1) o) v =
      if o < b.length then some (State.mk (H ++ a :: b.set o v :: E) out g w) else none := by
  unfold store; simp only [List.get?_eq_getElem?, get_new1, set_new1]

theorem filled_length (xs : List Val) (i : Nat) (h : i ≤ xs.length) :
    (filled xs i).length = xs.length := by
  simp [filled]; omega

theorem filled_full (xs : List Val) : filled xs xs.length = xs := by
  simp [filled]

theorem filled_set (P R xs : List Val) (i : Nat) (x : Val) (hx : xs[i]? = some x) :
    (P ++ (filled xs i ++ R)).set (P.length + i) x = P ++ (filled xs (i + 1) ++ R) := by
  have hi : i < xs.length := by
    rcases List.getElem?_eq_some_iff.mp hx with ⟨hlt, _⟩; exact hlt
  rw [List.set_append_right _ _ (by omega)]
  congr 1
  have h1 : P.length + i - P.length = i := by omega
  rw [h1]
  unfold filled
  have h2 : xs.length - i = (xs.length - (i + 1)) + 1 := by omega
  rw [h2, List.replicate_succ, List.append_assoc, List.append_assoc]
  have h3 : (List.take i xs).length = i := by simp; omega
  rw [List.set_append_right _ _ (by omega), h3, Nat.sub_self]
  simp only [List.cons_append, List.set_cons_zero]
  rw [List.take_succ, hx]
  simp

theorem ptrAdd_ptr (b o k : Nat) : ptrAdd (Val.ptr b o) k = Val.ptr b (o + k) := rfl

theorem to_size_of_lt (n : Nat) (h : n < 2 ^ SIZE_WIDTH) : to_size n = n := by
  unfold to_size; exact Nat.mod_eq_of_lt h

theorem cons_run (st : State) (head tail : Val) (xs : List Val) (hs : IsSeq st tail xs)
  (hfit : sizeof_ptr * (xs.length + 1) < 2 ^ SIZE_WIDTH) :
  _make_bismuth_cons head tail st = some (Val.ptr st.heap.length 0,
    State.mk (st.heap ++ [[Val.ptr (st.heap.length + 1) 0, Val.size (xs.length + 1)], head :: xs])
      st.out st.globals st.gwrites) := by
  obtain ⟨_, hlen, items, hitems, hcells⟩ := hs
  have hsz1 : to_size (xs.length + 1) = xs.length + 1 := by
    apply to_size_of_lt; unfold sizeof_ptr at hfit; omega
  have hsz2 : to_size (sizeof_ptr * (xs.length + 1)) / sizeof_ptr = xs.length + 1 := by
    rw [to_size_of_lt _ hfit]; unfold sizeof_ptr; omega
  have hbody : ∀ i, i < xs.length →
      (fun i st_3 => do
          let tail_items ← load st_3 tail
          let x ← load st_3 (ptrAdd tail_items i)
          let result_items ← load st_3 (Val.ptr st.heap.length 0)
          store st_3 (ptrAdd result_items (i + 1)) x) i
        (State.mk (st.heap ++ [[Val.ptr (st.heap.length + 1) 0, Val.size (xs.length + 1)],
          [Val.undef] ++ (filled xs i ++ [])]) st.out st.globals st.gwrites) =
      some (State.mk (st.heap ++ [[Val.ptr (st.heap.length + 1) 0, Val.size (xs.length + 1)],
          [Val.undef] ++ (filled xs (i + 1) ++ [])]) st.out st.globals st.gwrites) := by
    intro i hi
    have hx : xs[i]? = some xs[i] := List.getElem?_eq_getElem hi
    have hset : ([Val.undef] ++ (filled xs i ++ [])).set (i + 1) xs[i] =
        [Val.undef] ++ (filled xs (i + 1) ++ []) := by
      have h := filled_set [Val.undef] [] xs i xs[i] hx
      rwa [show [Val.undef].length + i = i + 1 by simp; omega] at h
    have hl : (filled xs i).length = xs.length := filled_length xs i (le_of_lt hi)
    simp only [load_old _ _ _ _ hitems, load_old _ _ _ _ ((hcells i hi).trans hx),
      Option.bind_eq_bind, Option.some_bind, load_new0, store_new1, ptrAdd_ptr,
      List.getElem?_cons_zero, Nat.zero_add]
    rw [if_pos (by simp [hl]; omega)]
    rw [hset]
  unfold _make_bismuth_cons
  simp only [malloc, malloc_struct, alloc, cells_bismuth_vector]
  rw [load_old _ _ _ _ hlen]
  simp only [Option.bind_eq_bind, Option.some_bind, hsz1, ptrAdd_ptr, store_new0, load_new0,
    Nat.zero_add, Nat.div_one, List.replicate, List.length_cons, List.length_nil,
    List.set_cons_succ, List.set_cons_zero, List.getElem?_cons_succ, List.getElem?_cons_zero,
    List.append_assoc, List.cons_append, List.nil_append, List.length_append,
    Nat.lt_add_one, if_true, hsz2, Nat.reduceAdd, Nat.reduceLT, Nat.zero_lt_succ, Nat.add_zero]
  rw [forLoop_states xs.length _ (fun i => State.mk (st.heap ++
      [[Val.ptr (st.heap.length + 1) 0, Val.size (xs.length + 1)],
        [Val.undef] ++ (filled xs i ++ [])]) st.out st.globals st.gwrites) _
      (by simp [filled, List.replicate_succ]) hbody]
  simp only [Option.bind_eq_bind, Option.some_bind, load_new0, store_new1,
    List.getElem?_cons_zero, ptrAdd_ptr]
  simp [filled_full]

theorem snoc_run (st : State) (init last : Val) (xs : List Val) (hs : IsSeq st init xs)
    (hfit : sizeof_ptr * (xs.length + 1) < 2 ^ SIZE_WIDTH) :
    _make_bismuth_snoc init last st = some (Val.ptr st.heap.length 0,
      State.mk (st.heap ++ [[Val.ptr (st.heap.length + 1) 0, Val.size (xs.length + 1)],
        xs ++ [last]]) st.out st.globals st.gwrites) := by
  obtain ⟨_, hlen, items, hitems, hcells⟩ := hs
  have hsz1 : to_size (xs.length + 1) = xs.length + 1 := by
    apply to_size_of_lt; unfold sizeof_ptr at hfit; omega
  have hsz2 : to_size (sizeof_ptr * (xs.length + 1)) / sizeof_ptr = xs.length + 1 := by
    rw [to_size_of_lt _ hfit]; unfold sizeof_ptr; omega
  have hbody : ∀ i, i < xs.length →
      (fun i st_3 => do
          let init_items ← load st_3 init
          let x ← load st_3 (ptrAdd init_items i)
          let result_items ← load st_3 (Val.ptr st.heap.length 0)
          store st_3 (ptrAdd result_items i) x) i
        (State.mk (st.heap ++ [[Val.ptr (st.heap.length + 1) 0, Val.size (xs.length + 1)],
          [] ++ (filled xs i ++ [Val.undef])]) st.out st.globals st.gwrites) =
      some (State.mk (st.heap ++ [[Val.ptr (st.heap.length + 1) 0, Val.size (xs.length + 1)],
          [] ++ (filled xs (i + 1) ++ [Val.undef])]) st.out st.globals st.gwrites) := by
    intro i hi
    have hx : xs[i]? = some xs[i] := List.getElem?_eq_getElem hi
    have hset : ([] ++ (filled xs i ++ [Val.undef])).set i xs[i] =
        [] ++ (filled xs (i + 1) ++ [Val.undef]) := by
      have h := filled_set [] [Val.undef] xs i xs[i] hx
      rwa [show ([] : List Val).length + i = i by simp] at h
    have hl : (filled xs i).length = xs.length := filled_length xs i (le_of_lt hi)
    simp only [load_old _ _ _ _ hitems, load_old _ _ _ _ ((hcells i hi).trans hx),
      Option.bind_eq_bind, Option.some_bind, load_new0, store_new1, ptrAdd_ptr,
      List.getElem?_cons_zero, Nat.zero_add]
    rw [if_pos (by simp [hl]; omega)]
    rw [hset]
  unfold _make_bismuth_snoc
  simp only [malloc, malloc_struct, alloc, cells_bismuth_vector]
  rw [load_old _ _ _ _ hlen]
  simp only [Option.bind_eq_bind, Option.some_bind, hsz1, ptrAdd_ptr, store_new0, load_new0,
    Nat.zero_add, Nat.div_one, List.replicate, List.length_cons, List.length_nil,
    List.set_cons_succ, List.set_cons_zero, List.getElem?_cons_succ, List.getElem?_cons_zero,
    List.append_assoc, List.cons_append, List.nil_append, List.length_append,
    Nat.lt_add_one, if_true, hsz2, Nat.reduceAdd, Nat.reduceLT, Nat.zero_lt_succ, Nat.add_zero]
  rw [forLoop_states xs.length _ (fun i => State.mk (st.heap ++
      [[Val.ptr (st.heap.length + 1) 0, Val.size (xs.length + 1)],
        [] ++ (filled xs i ++ [Val.undef])]) st.out st.globals st.gwrites) _
      (by simp [filled, ← List.replicate_succ']; rfl) hbody]
  simp only [Option.bind_eq_bind, Option.some_bind, load_new0, store_new1,
    List.getElem?_cons_zero, ptrAdd_ptr, load_old _ _ _ _ hlen, Nat.zero_add]
  simp [filled_full]

theorem appendArray_run (st : State) (self first second : Val) (xs ys : List Val)
    (hx : IsSeq st first xs) (hy : IsSeq st second ys)
    (hfit : sizeof_ptr * (xs.length + ys.length) < 2 ^ SIZE_WIDTH) :
    appendArray_declare_builtin self first second st = some (Val.ptr st.heap.length 0,
      State.mk (st.heap ++ [[Val.ptr (st.heap.length + 1) 0, Val.size (xs.length + ys.length)],
        xs ++ ys]) st.out st.globals st.gwrites) := by
  obtain ⟨_, hlen1, items1, hitems1, hcells1⟩ := hx
  obtain ⟨_, hlen2, items2, hitems2, hcells2⟩ := hy
  have hsz1 : to_size (xs.length + ys.length) = xs.length + ys.length := by
    apply to_size_of_lt; unfold sizeof_ptr at hfit; omega
  have hsz2 : to_size (sizeof_ptr * (xs.length + ys.length)) / sizeof_ptr
      = xs.length + ys.length := by
    rw [to_size_of_lt _ hfit]; unfold sizeof_ptr; omega
  have hbody1 : ∀ i, i < xs.length →
      (fun i st_3 => do
          let first_items ← load st_3 first
          let x ← load st_3 (ptrAdd first_items i)
          let result_items ← load st_3 (Val.ptr st.heap.length 0)
          store st_3 (ptrAdd result_items i) x) i
        (State.mk (st.heap ++ [[Val.ptr (st.heap.length + 1) 0,
            Val.size (xs.length + ys.length)],
          [] ++ (filled xs i ++ List.replicate ys.length Val.undef)])
          st.out st.globals st.gwrites) =
      some (State.mk (st.heap ++ [[Val.ptr (st.heap.length + 1) 0,
            Val.size (xs.length + ys.length)],
          [] ++ (filled xs (i + 1) ++ List.replicate ys.length Val.undef)])
          st.out st.globals st.gwrites) := by
    intro i hi
    have hx : xs[i]? = some xs[i] := List.getElem?_eq_getElem hi
    have hset : ([] ++ (filled xs i ++ List.replicate ys.length Val.undef)).set i xs[i] =
        [] ++ (filled xs (i + 1) ++ List.replicate ys.length Val.undef) := by
      have h := filled_set [] (List.replicate ys.length Val.undef) xs i xs[i] hx
      rwa [show ([] : List Val).length + i = i by simp] at h
    have hl : (filled xs i).length = xs.length := filled_length xs i (le_of_lt hi)
    simp only [load_old _ _ _ _ hitems1, load_old _ _ _ _ ((hcells1 i hi).trans hx),
      Option.bind_eq_bind, Option.some_bind, load_new0, store_new1, ptrAdd_ptr,
      List.getElem?_cons_zero, Nat.zero_add]
    rw [if_pos (by simp [hl]; omega)]
    rw [hset]
  have hbody2 : ∀ i, i < ys.length →
      (fun i st_3 => do
          let second_items ← load st_3 second
          let x ← load st_3 (ptrAdd second_items i)
          let result_items ← load st_3 (Val.ptr st.heap.length 0)
          store st_3 (ptrAdd result_items (to_size (i + xs.length))) x) i
        (State.mk (st.heap ++ [[Val.ptr (st.heap.length + 1) 0,
            Val.size (xs.length + ys.length)],
          xs ++ (filled ys i ++ [])])
          st.out st.globals st.gwrites) =
      some (State.mk (st.heap ++ [[Val.ptr (st.heap.length + 1) 0,
            Val.size (xs.length + ys.length)],
          xs ++ (filled ys (i + 1) ++ [])])
          st.out st.globals st.gwrites) := by
    intro i hi
    have hy : ys[i]? = some ys[i] := List.getElem?_eq_getElem hi
    have hidx : to_size (i + xs.length) = xs.length + i := by
      rw [to_size_of_lt, Nat.add_comm]; unfold sizeof_ptr at hfit; omega
    have hset := filled_set xs [] ys i ys[i] hy
    have hl : (filled ys i).length = ys.length := filled_length ys i (le_of_lt hi)
    simp only [load_old _ _ _ _ hitems2, load_old _ _ _ _ ((hcells2 i hi).trans hy),
      Option.bind_eq_bind, Option.some_bind, load_new0, store_new1, ptrAdd_ptr,
      List.getElem?_cons_zero, Nat.zero_add, hidx]
    rw [if_pos (by simp [hl]; omega)]
    rw [hset]
  unfold appendArray_declare_builtin
  simp only [malloc, malloc_struct, alloc, cells_bismuth_vector]
  rw [load_old _ _ _ _ hlen1]
  simp only [Option.bind_eq_bind, Option.some_bind]
  rw [load_old _ _ _ _ hlen2]
  simp only [Option.bind_eq_bind, Option.some_bind, hsz1, ptrAdd_ptr, store_new0, load_new0,
    Nat.zero_add, Nat.div_one, List.replicate, List.length_cons, List.length_nil,
    List.set_cons_succ, List.set_cons_zero, List.getElem?_cons_succ, List.getElem?_cons_zero,
    List.append_assoc, List.cons_append, List.nil_append, List.length_append,
    Nat.lt_add_one, if_true, hsz2, Nat.reduceAdd, Nat.reduceLT, Nat.zero_lt_succ, Nat.add_zero]
  rw [forLoop_states xs.length _ (fun i => State.mk (st.heap ++
      [[Val.ptr (st.heap.length + 1) 0, Val.size (xs.length + ys.length)],
        [] ++ (filled xs i ++ List.replicate ys.length Val.undef)])
        st.out st.globals st.gwrites) _
      (by simp [filled]) hbody1]
  simp only [Option.bind_eq_bind, Option.some_bind]
  rw [forLoop_states ys.length _ (fun i => State.mk (st.heap ++
      [[Val.ptr (st.heap.length + 1) 0, Val.size (xs.length + ys.length)],
        xs ++ (filled ys i ++ [])])
        st.out st.globals st.gwrites) _
      (by simp [filled, filled_full]) hbody2]
  simp [filled_full]

theorem size_of_int_eq (i : Int) (h0 : 0 ≤ i) (h1 : i < 2 ^ SIZE_WIDTH) :
    size_of_int i = i.toNat := by
  unfold size_of_int
  rw [Int.emod_eq_of_lt h0 h1]

theorem at_ret (st : State) (self s ix x : Val) (xs : List Val) (i : Int)
    (hs : IsSeq st s xs) (hix : load st ix = some (Val.int i)) (h0 : 0 ≤ i)
    (hx : xs[i.toNat]? = some x) :
    at_declare_builtin self s ix st = Outcome.ret x st := by
  obtain ⟨hb, hlen, items, hitems, hcells⟩ := hs
  have hlt : i.toNat < xs.length := by
    rcases List.getElem?_eq_some_iff.mp hx with ⟨h, _⟩; exact h
  have hi64 : i < 2 ^ SIZE_WIDTH := by
    have : (i.toNat : Int) = i := Int.toNat_of_nonneg h0
    have h2 : ((i.toNat : Nat) : Int) < ((2 ^ SIZE_WIDTH : Nat) : Int) := by
      exact_mod_cast lt_trans hlt hb
    rw [this] at h2
    exact_mod_cast h2
  have hcond : ¬ (i < 0 ∨ size_of_int i ≥ xs.length) := by
    rw [size_of_int_eq i h0 hi64]
    omega
  unfold at_declare_builtin
  simp only [hix, hlen, hitems, if_neg hcond, (hcells _ hlt).trans hx]

theorem at_exit (st : State) (self s ix : Val) (xs : List Val) (i : Int)
    (hs : IsSeq st s xs) (hix : load st ix = some (Val.int i)) (h1 : i < 2 ^ SIZE_WIDTH)
    (hoob : i < 0 ∨ (xs.length : Int) ≤ i) :
    at_declare_builtin self s ix st = Outcome.exit 1
      (State.mk st.heap (st.out ++ oob_message i xs.length) st.globals st.gwrites) := by
  obtain ⟨hb, hlen, items, hitems, hcells⟩ := hs
  have hcond : i < 0 ∨ size_of_int i ≥ xs.length := by
    rcases hoob with h | h
    · exact Or.inl h
    · by_cases h0 : 0 ≤ i
      · right
        rw [size_of_int_eq i h0 h1]
        omega
      · left; omega
  unfold at_declare_builtin
  simp only [hix, hlen, if_pos hcond, oob_message]

theorem isSeq_old {st : State} {p : Val} {xs : List Val} (E : List (List Val))
    (out : List Nat) (g : Glob → Val) (w : List Glob) (h : IsSeq st p xs) :
    IsSeq (State.mk (st.heap ++ E) out g w) p xs := by
  obtain ⟨hb, hlen, items, hitems, hcells⟩ := h
  refine ⟨hb, load_old _ _ _ _ hlen, items, load_old _ _ _ _ hitems, ?_⟩
  intro i hi
  have hx : xs[i]? = some xs[i] := List.getElem?_eq_getElem hi
  rw [hx]
  exact load_old _ _ _ _ ((hcells i hi).trans hx)

theorem isSeq_new (H : List (List Val)) (out : List Nat) (g : Glob → Val) (w : List Glob)
    (zs : List Val) (n : Nat) (hn : zs.length = n) (hb : n < 2 ^ SIZE_WIDTH) :
    IsSeq (State.mk (H ++ [[Val.ptr (H.length + 1) 0, Val.size n], zs]) out g w)
      (Val.ptr H.length 0) zs := by
  subst hn
  refine ⟨hb, ?_, Val.ptr (H.length + 1) 0, ?_, ?_⟩
  · rw [ptrAdd_ptr, load_new0]; rfl
  · rw [load_new0]; rfl
  · intro i _
    rw [ptrAdd_ptr, load_new1, Nat.zero_add]

theorem unchanged_old (st : State) (E : List (List Val)) (out : List Nat)
    (g : Glob → Val) (w : List Glob) :
    Unchanged st (State.mk (st.heap ++ E) out g w) :=
  fun _ _ h => load_old E out g w h

theorem newObject_of_le (st : State) (b o : Nat) (hb : st.heap.length ≤ b) :
    NewObject st (Val.ptr b o) := by
  refine ⟨⟨b, o, rfl, hb⟩, ?_⟩
  intro k
  unfold load
  rw [ptrAdd_ptr]
  simp only [List.get?_eq_getElem?]
  rw [List.getElem?_eq_none hb]

theorem newObject_length (st : State) (o : Nat) : NewObject st (Val.ptr st.heap.length o) :=
  newObject_of_le st _ o (le_refl _)

theorem atReturns_of_isSeq {st : State} {s x : Val} {xs : List Val} (i : Nat)
    (hs : IsSeq st s xs) (hx : xs[i]? = some x) : AtReturns st s (i : Int) x := by
  intro self ix hix
  exact at_ret st self s ix x xs i hs hix (Int.natCast_nonneg i) (by simpa using hx)

/-- C1. Prepend: for every sequence `s` (elements `xs`) and value `v` whose
grown item array has a byte size that `size_t` can hold, `_make_bismuth_cons v s`
returns a sequence `r` with `length(r) = length(s) + 1`, whose elements are `v`
followed by those of `s`; `at(r, 0)` returns `v` and `at(r, i + 1)` returns what
`at(s, i)` returns, element `i` of `s`, for every `i < length(s)`. -/
theorem cons_contract (st : State) (v s : Val) (xs : List Val) (hs : IsSeq st s xs)
    (hfit : sizeof_ptr * (xs.length + 1) < 2 ^ SIZE_WIDTH) :
    ∃ r st2, _make_bismuth_cons v s st = some (r, st2) ∧
      load st2 (ptrAdd r 1) = some (Val.size (xs.length + 1)) ∧
      IsSeq st2 r (v :: xs) ∧
      AtReturns st2 r 0 v ∧
      ∀ i : Nat, i < xs.length →
        ∃ x, xs[i]? = some x ∧ AtReturns st2 s i x ∧ AtReturns st2 r (i + 1) x := by
  have hb : xs.length + 1 < 2 ^ SIZE_WIDTH := by unfold sizeof_ptr at hfit; omega
  have hr : IsSeq (State.mk (st.heap ++ [[Val.ptr (st.heap.length + 1) 0,
      Val.size (xs.length + 1)], v :: xs]) st.out st.globals st.gwrites)
      (Val.ptr st.heap.length 0) (v :: xs) :=
    isSeq_new st.heap st.out st.globals st.gwrites (v :: xs) (xs.length + 1) rfl hb
  refine ⟨_, _, cons_run st v s xs hs hfit, hr.2.1, hr, ?_, ?_⟩
  · simpa using atReturns_of_isSeq 0 hr (show (v :: xs)[0]? = some v by simp)
  · intro i hi
    refine ⟨xs[i], List.getElem?_eq_getElem hi, ?_, ?_⟩
    · exact atReturns_of_isSeq i (isSeq_old _ _ _ _ hs) (List.getElem?_eq_getElem hi)
    · have h := atReturns_of_isSeq (i + 1) hr
        (show (v :: xs)[i + 1]? = some xs[i] by simp [List.getElem?_eq_getElem hi])
      simpa using h

/-- Witness of C1: prepending the pointer `Val.ptr 2 0` to the two-element
vector of `sample`. -/
theorem cons_contract_witness :
    IsSeq sample sample_vec [Val.ptr 0 0, Val.ptr 1 0] ∧
    sizeof_ptr * ([Val.ptr 0 0, Val.ptr 1 0].length + 1) < 2 ^ SIZE_WIDTH ∧
    (_make_bismuth_cons (Val.ptr 2 0) sample_vec sample).map (fun p => (p.1, p.2.heap)) =
      some (Val.ptr 5 0, sample.heap ++
        [[Val.ptr 6 0, Val.size 3], [Val.ptr 2 0, Val.ptr 0 0, Val.ptr 1 0]]) ∧
    ∃ r st2, _make_bismuth_cons (Val.ptr 2 0) sample_vec sample = some (r, st2) ∧
      load st2 (ptrAdd r 1) = some (Val.size ([Val.ptr 0 0, Val.ptr 1 0].length + 1)) ∧
      IsSeq st2 r [Val.ptr 2 0, Val.ptr 0 0, Val.ptr 1 0] ∧
      AtReturns st2 r 0 (Val.ptr 2 0) ∧
      ∀ i : Nat, i < [Val.ptr 0 0, Val.ptr 1 0].length →
        ∃ x, [Val.ptr 0 0, Val.ptr 1 0][i]? = some x ∧
          AtReturns st2 sample_vec i x ∧ AtReturns st2 r (i + 1) x :=
  have hs : IsSeq sample sample_vec [Val.ptr 0 0, Val.ptr 1 0] :=
    ⟨by decide, by decide, Val.ptr 4 0, by decide, by decide⟩
  ⟨hs, by decide, by decide,
    cons_contract sample (Val.ptr 2 0) sample_vec [Val.ptr 0 0, Val.ptr 1 0] hs (by decide)⟩

/-- C2. Append: for every sequence `s` (elements `xs`) and value `v` whose
grown item array has a byte size that `size_t` can hold, `_make_bismuth_snoc s v`
returns a sequence `r` with `length(r) = length(s) + 1`, whose elements are
those of `s` followed by `v`; `at(r, length(s))` returns `v` and `at(r, i)`
returns what `at(s, i)` returns, element `i` of `s`, for every `i < length(s)`. -/
theorem snoc_contract (st : State) (s v : Val) (xs : List Val) (hs : IsSeq st s xs)
    (hfit : sizeof_ptr * (xs.length + 1) < 2 ^ SIZE_WIDTH) :
    ∃ r st2, _make_bismuth_snoc s v st = some (r, st2) ∧
      load st2 (ptrAdd r 1) = some (Val.size (xs.length + 1)) ∧
      IsSeq st2 r (xs ++ [v]) ∧
      AtReturns st2 r xs.length v ∧
      ∀ i : Nat, i < xs.length →
        ∃ x, xs[i]? = some x ∧ AtReturns st2 s i x ∧ AtReturns st2 r i x := by
  have hb : xs.length + 1 < 2 ^ SIZE_WIDTH := by unfold sizeof_ptr at hfit; omega
  have hr : IsSeq (State.mk (st.heap ++ [[Val.ptr (st.heap.length + 1) 0,
      Val.size (xs.length + 1)], xs ++ [v]]) st.out st.globals st.gwrites)
      (Val.ptr st.heap.length 0) (xs ++ [v]) :=
    isSeq_new st.heap st.out st.globals st.gwrites (xs ++ [v]) (xs.length + 1) (by simp) hb
  refine ⟨_, _, snoc_run st s v xs hs hfit, by simpa using hr.2.1, hr, ?_, ?_⟩
  · exact atReturns_of_isSeq xs.length hr (by simp)
  · intro i hi
    refine ⟨xs[i], List.getElem?_eq_getElem hi, ?_, ?_⟩
    · exact atReturns_of_isSeq i (isSeq_old _ _ _ _ hs) (List.getElem?_eq_getElem hi)
    · exact atReturns_of_isSeq i hr
        (by rw [List.getElem?_append_left hi]; exact List.getElem?_eq_getElem hi)

/-- Witness of C2: appending the pointer `Val.ptr 2 0` to the two-element
vector of `sample`. -/
theorem snoc_contract_witness :
    IsSeq sample sample_vec [Val.ptr 0 0, Val.ptr 1 0] ∧
    sizeof_ptr * ([Val.ptr 0 0, Val.ptr 1 0].length + 1) < 2 ^ SIZE_WIDTH ∧
    (_make_bismuth_snoc sample_vec (Val.ptr 2 0) sample).map (fun p => (p.1, p.2.heap)) =
      some (Val.ptr 5 0, sample.heap ++
        [[Val.ptr 6 0, Val.size 3], [Val.ptr 0 0, Val.ptr 1 0, Val.ptr 2 0]]) ∧
    ∃ r st2, _make_bismuth_snoc sample_vec (Val.ptr 2 0) sample = some (r, st2) ∧
      load st2 (ptrAdd r 1) = some (Val.size ([Val.ptr 0 0, Val.ptr 1 0].length + 1)) ∧
      IsSeq st2 r [Val.ptr 0 0, Val.ptr 1 0, Val.ptr 2 0] ∧
      AtReturns st2 r ([Val.ptr 0 0, Val.ptr 1 0].length) (Val.ptr 2 0) ∧
      ∀ i : Nat, i < [Val.ptr 0 0, Val.ptr 1 0].length →
        ∃ x, [Val.ptr 0 0, Val.ptr 1 0][i]? = some x ∧
          AtReturns st2 sample_vec i x ∧ AtReturns st2 r i x :=
  have hs : IsSeq sample sample_vec [Val.ptr 0 0, Val.ptr 1 0] :=
    ⟨by decide, by decide, Val.ptr 4 0, by decide, by decide⟩
  ⟨hs, by decide, by decide,
    snoc_contract sample sample_vec (Val.ptr 2 0) [Val.ptr 0 0, Val.ptr 1 0] hs (by decide)⟩

/-- C3. Concat: for all sequences `a` (elements `xs`) and `b` (elements `ys`)
whose joint item array has a byte size that `size_t` can hold,
`appendArray_declare_builtin _ a b` returns a sequence `r` with
`length(r) = length(a) + length(b)`, whose elements are those of `a` followed by
those of `b`; `at(r, i)` returns what `at(a, i)` returns for `i < length(a)` and
what `at(b, i - length(a))` returns for `length(a) ≤ i < length(a) + length(b)`. -/
theorem appendArray_contract (st : State) (self a b : Val) (xs ys : List Val)
    (ha : IsSeq st a xs) (hb : IsSeq st b ys)
    (hfit : sizeof_ptr * (xs.length + ys.length) < 2 ^ SIZE_WIDTH) :
    ∃ r st2, appendArray_declare_builtin self a b st = some (r, st2) ∧
      load st2 (ptrAdd r 1) = some (Val.size (xs.length + ys.length)) ∧
      IsSeq st2 r (xs ++ ys) ∧
      (∀ i : Nat, i < xs.length →
        ∃ x, xs[i]? = some x ∧ AtReturns st2 a i x ∧ AtReturns st2 r i x) ∧
      (∀ i : Nat, xs.length ≤ i → i < xs.length + ys.length →
        ∃ x, ys[i - xs.length]? = some x ∧
          AtReturns st2 b ((i - xs.length : Nat) : Int) x ∧ AtReturns st2 r i x) := by
  have hlt : xs.length + ys.length < 2 ^ SIZE_WIDTH := by unfold sizeof_ptr at hfit; omega
  have hr : IsSeq (State.mk (st.heap ++ [[Val.ptr (st.heap.length + 1) 0,
      Val.size (xs.length + ys.length)], xs ++ ys]) st.out st.globals st.gwrites)
      (Val.ptr st.heap.length 0) (xs ++ ys) :=
    isSeq_new st.heap st.out st.globals st.gwrites (xs ++ ys) (xs.length + ys.length)
      (by simp) hlt
  refine ⟨_, _, appendArray_run st self a b xs ys ha hb hfit, by simpa using hr.2.1, hr, ?_, ?_⟩
  · intro i hi
    refine ⟨xs[i], List.getElem?_eq_getElem hi, ?_, ?_⟩
    · exact atReturns_of_isSeq i (isSeq_old _ _ _ _ ha) (List.getElem?_eq_getElem hi)
    · exact atReturns_of_isSeq i hr
        (by rw [List.getElem?_append_left hi]; exact List.getElem?_eq_getElem hi)
  · intro i hle hi
    have hj : i - xs.length < ys.length := by omega
    refine ⟨ys[i - xs.length], List.getElem?_eq_getElem hj, ?_, ?_⟩
    · exact atReturns_of_isSeq _ (isSeq_old _ _ _ _ hb) (List.getElem?_eq_getElem hj)
    · exact atReturns_of_isSeq i hr
        (by rw [List.getElem?_append_right hle]; exact List.getElem?_eq_getElem hj)

/-- Witness of C3: concatenating the two-element vector of `sample` with itself. -/
theorem appendArray_contract_witness :
    IsSeq sample sample_vec [Val.ptr 0 0, Val.ptr 1 0] ∧
    sizeof_ptr * ([Val.ptr 0 0, Val.ptr 1 0].length + [Val.ptr 0 0, Val.ptr 1 0].length)
      < 2 ^ SIZE_WIDTH ∧
    (appendArray_declare_builtin Val.null sample_vec sample_vec sample).map
        (fun p => (p.1, p.2.heap)) =
      some (Val.ptr 5 0, sample.heap ++
        [[Val.ptr 6 0, Val.size 4], [Val.ptr 0 0, Val.ptr 1 0, Val.ptr 0 0, Val.ptr 1 0]]) ∧
    ∃ r st2, appendArray_declare_builtin Val.null sample_vec sample_vec sample
        = some (r, st2) ∧
      load st2 (ptrAdd r 1) = some (Val.size
        ([Val.ptr 0 0, Val.ptr 1 0].length + [Val.ptr 0 0, Val.ptr 1 0].length)) ∧
      IsSeq st2 r ([Val.ptr 0 0, Val.ptr 1 0] ++ [Val.ptr 0 0, Val.ptr 1 0]) ∧
      (∀ i : Nat, i < [Val.ptr 0 0, Val.ptr 1 0].length →
        ∃ x, [Val.ptr 0 0, Val.ptr 1 0][i]? = some x ∧
          AtReturns st2 sample_vec i x ∧ AtReturns st2 r i x) ∧
      (∀ i : Nat, [Val.ptr 0 0, Val.ptr 1 0].length ≤ i →
        i < [Val.ptr 0 0, Val.ptr 1 0].length + [Val.ptr 0 0, Val.ptr 1 0].length →
        ∃ x, [Val.ptr 0 0, Val.ptr 1 0][i - [Val.ptr 0 0, Val.ptr 1 0].length]? = some x ∧
          AtReturns st2 sample_vec ((i - [Val.ptr 0 0, Val.ptr 1 0].length : Nat) : Int) x ∧
          AtReturns st2 r i x) :=
  have hs : IsSeq sample sample_vec [Val.ptr 0 0, Val.ptr 1 0] :=
    ⟨by decide, by decide, Val.ptr 4 0, by decide, by decide⟩
  ⟨hs, by decide, by decide,
    appendArray_contract sample Val.null sample_vec sample_vec
      [Val.ptr 0 0, Val.ptr 1 0] [Val.ptr 0 0, Val.ptr 1 0] hs hs (by decide)⟩

/-- C4. For every sequence `s` (elements `xs`) and every boxed `int` index `i`,
`at_declare_builtin _ s i` terminates the process if and only if `i < 0` or
`i ≥ length(s)`, the exit status then being 1; in every other case it returns
normally, without changing the state, the element stored at position `i` of `s`. -/
theorem at_contract (st : State) (self s ix : Val) (xs : List Val) (i : Int)
    (hs : IsSeq st s xs) (hix : load st ix = some (Val.int i)) (hint : IsInt i) :
    ((∃ code st2, at_declare_builtin self s ix st = Outcome.exit code st2) ↔
        (i < 0 ∨ (xs.length : Int) ≤ i)) ∧
    ((i < 0 ∨ (xs.length : Int) ≤ i) →
        ∃ st2, at_declare_builtin self s ix st = Outcome.exit 1 st2) ∧
    (¬ (i < 0 ∨ (xs.length : Int) ≤ i) →
        ∃ x, xs[i.toNat]? = some x ∧ at_declare_builtin self s ix st = Outcome.ret x st) := by
  have h64 : i < 2 ^ SIZE_WIDTH := by
    have h := hint.2
    simp only [INT_WIDTH, SIZE_WIDTH] at h ⊢
    omega
  have hin : ¬ (i < 0 ∨ (xs.length : Int) ≤ i) →
      ∃ x, xs[i.toNat]? = some x ∧ at_declare_builtin self s ix st = Outcome.ret x st := by
    intro hno
    have h0 : 0 ≤ i := by omega
    have hlt : i.toNat < xs.length := by omega
    exact ⟨xs[i.toNat], List.getElem?_eq_getElem hlt,
      at_ret st self s ix _ xs i hs hix h0 (List.getElem?_eq_getElem hlt)⟩
  refine ⟨⟨?_, ?_⟩, ?_, hin⟩
  · rintro ⟨code, st2, he⟩
    by_contra hno
    obtain ⟨x, _, hr⟩ := hin hno
    rw [hr] at he
    cases he
  · intro hoob
    exact ⟨1, _, at_exit st self s ix xs i hs hix h64 hoob⟩
  · intro hoob
    exact ⟨_, at_exit st self s ix xs i hs hix h64 hoob⟩

/-- Witness of C4: index 5 on the two-element vector of `sample`. -/
theorem at_contract_witness :
    IsSeq sample sample_vec [Val.ptr 0 0, Val.ptr 1 0] ∧
    load sample (Val.ptr 2 0) = some (Val.int 5) ∧ IsInt 5 ∧
    (((∃ code st2, at_declare_builtin Val.null sample_vec (Val.ptr 2 0) sample
          = Outcome.exit code st2) ↔
        ((5 : Int) < 0 ∨ (([Val.ptr 0 0, Val.ptr 1 0].length : Nat) : Int) ≤ 5)) ∧
    (((5 : Int) < 0 ∨ (([Val.ptr 0 0, Val.ptr 1 0].length : Nat) : Int) ≤ 5) →
        ∃ st2, at_declare_builtin Val.null sample_vec (Val.ptr 2 0) sample
          = Outcome.exit 1 st2) ∧
    (¬ ((5 : Int) < 0 ∨ (([Val.ptr 0 0, Val.ptr 1 0].length : Nat) : Int) ≤ 5) →
        ∃ x, [Val.ptr 0 0, Val.ptr 1 0][(5 : Int).toNat]? = some x ∧
          at_declare_builtin Val.null sample_vec (Val.ptr 2 0) sample
            = Outcome.ret x sample)) :=
  have hs : IsSeq sample sample_vec [Val.ptr 0 0, Val.ptr 1 0] :=
    ⟨by decide, by decide, Val.ptr 4 0, by decide, by decide⟩
  have hint : IsInt 5 := ⟨by decide, by decide⟩
  ⟨hs, by decide, hint,
    at_contract sample Val.null sample_vec (Val.ptr 2 0) [Val.ptr 0 0, Val.ptr 1 0] 5
      hs (by decide) hint⟩

/-- C5. For every sequence `s` (elements `xs`) and every boxed `int` index `i`
that is out of bounds for `s`, `at_declare_builtin` terminates the process with
a non-zero exit status after appending to standard output a text that contains
the decimal rendering of `i` (`%d`) and, after it, the decimal rendering of the
element count of `s` (`%lu`). -/
theorem at_diagnostic (st : State) (self s ix : Val) (xs : List Val) (i : Int)
    (hs : IsSeq st s xs) (hix : load st ix = some (Val.int i)) (hint : IsInt i)
    (hoob : i < 0 ∨ (xs.length : Int) ≤ i) :
    ∃ code st2 before between after,
      at_declare_builtin self s ix st = Outcome.exit code st2 ∧ code ≠ 0 ∧
      st2.out = st.out ++ (before ++ fmt_d i ++ between ++ fmt_lu xs.length ++ after) := by
  have h64 : i < 2 ^ SIZE_WIDTH := by
    have h := hint.2
    simp only [INT_WIDTH, SIZE_WIDTH] at h ⊢
    omega
  exact ⟨1, _, bytes "out-of-bounds index; index ", bytes " in array of length ", bytes "\n",
    at_exit st self s ix xs i hs hix h64 hoob, by decide, rfl⟩

/-- Witness of C5: index 5 on the two-element vector of `sample`; the renderings
are the texts `5` and `2`, and the whole diagnostic is evaluated. -/
theorem at_diagnostic_witness :
    IsSeq sample sample_vec [Val.ptr 0 0, Val.ptr 1 0] ∧
    load sample (Val.ptr 2 0) = some (Val.int 5) ∧ IsInt 5 ∧
    ((5 : Int) < 0 ∨ (([Val.ptr 0 0, Val.ptr 1 0].length : Nat) : Int) ≤ 5) ∧
    fmt_d 5 = bytes "5" ∧ fmt_lu [Val.ptr 0 0, Val.ptr 1 0].length = bytes "2" ∧
    (∃ st2, at_declare_builtin Val.null sample_vec (Val.ptr 2 0) sample = Outcome.exit 1 st2 ∧
      st2.out = bytes "out-of-bounds index; index 5 in array of length 2\n") ∧
    ∃ code st2 before between after,
      at_declare_builtin Val.null sample_vec (Val.ptr 2 0) sample = Outcome.exit code st2 ∧
      code ≠ 0 ∧
      st2.out = sample.out ++ (before ++ fmt_d 5 ++ between ++
        fmt_lu [Val.ptr 0 0, Val.ptr 1 0].length ++ after) :=
  have hs : IsSeq sample sample_vec [Val.ptr 0 0, Val.ptr 1 0] :=
    ⟨by decide, by decide, Val.ptr 4 0, by decide, by decide⟩
  have hint : IsInt 5 := ⟨by decide, by decide⟩
  ⟨hs, by decide, hint, by decide, by decide, by decide, ⟨_, rfl, by decide⟩,
    at_diagnostic sample Val.null sample_vec (Val.ptr 2 0) [Val.ptr 0 0, Val.ptr 1 0] 5
      hs (by decide) hint (by decide)⟩

theorem c_string_cells_split (cs : List Val) (s : List Nat) (h : c_string_cells cs = some s) :
    (∃ rest, cs = s.map Val.byte ++ Val.byte 0 :: rest) ∧ ∀ c, c ∈ s → c ≠ 0 := by
  induction cs generalizing s with
  | nil => simp [c_string_cells] at h
  | cons v rest ih =>
    cases v with
    | byte c =>
      by_cases hc : c = 0
      · subst hc
        simp [c_string_cells] at h
        subst h
        exact ⟨⟨rest, by simp⟩, by simp⟩
      · simp only [c_string_cells, if_neg hc, Option.map_eq_some'] at h
        obtain ⟨s2, hs2, rfl⟩ := h
        obtain ⟨⟨rest2, hrest⟩, hnz⟩ := ih s2 hs2
        refine ⟨⟨rest2, by simp [hrest]⟩, ?_⟩
        intro d hd
        rcases List.mem_cons.mp hd with h1 | h1
        · rw [h1]; exact hc
        · exact hnz d h1
    | _ => simp [c_string_cells] at h

theorem c_string_cells_join (s : List Nat) (rest : List Val) (hnz : ∀ c, c ∈ s → c ≠ 0) :
    c_string_cells (s.map Val.byte ++ Val.byte 0 :: rest) = some s := by
  induction s with
  | nil => simp [c_string_cells]
  | cons c s2 ih =>
    have hc : c ≠ 0 := hnz c (List.mem_cons_self _ _)
    have ih2 := ih (fun d hd => hnz d (List.mem_cons_of_mem _ hd))
    simp [c_string_cells, hc, ih2]

theorem count_loop_run (s : List Nat) (rest : List Val) (n : Nat)
    (hnz : ∀ c, c ∈ s → c ≠ 0) (hfit : n + s.length < 2 ^ SIZE_WIDTH) :
    count_loop (s.map Val.byte ++ Val.byte 0 :: rest) n = some (n + s.length) := by
  induction s generalizing n with
  | nil => simp [count_loop]
  | cons c s2 ih =>
    have hc : c ≠ 0 := hnz c (List.mem_cons_self _ _)
    have hlen : (c :: s2).length = s2.length + 1 := rfl
    rw [hlen] at hfit
    have hsz : to_size (n + 1) = n + 1 := to_size_of_lt _ (by omega)
    have ih2 := ih (n + 1) (fun d hd => hnz d (List.mem_cons_of_mem _ hd)) (by omega)
    simp only [List.map_cons, List.cons_append]
    rw [count_loop, if_neg hc, hsz, ih2, hlen]
    congr 1
    omega

theorem copy_loop_run (s : List Nat) (rest : List Val) (H : List (List Val)) (P : List Val)
    (m : Nat) (out : List Nat) (g : Glob → Val) (w : List Glob)
    (hnz : ∀ c, c ∈ s → c ≠ 0) (hm : s.length ≤ m) :
    copy_loop (s.map Val.byte ++ Val.byte 0 :: rest) (Val.ptr H.length P.length)
        (State.mk (H ++ [P ++ List.replicate m Val.undef]) out g w) =
      some (Val.ptr H.length (P.length + s.length),
        State.mk (H ++ [P ++ s.map Val.byte ++ List.replicate (m - s.length) Val.undef])
          out g w) := by
  induction s generalizing P m with
  | nil => simp [copy_loop]
  | cons c s2 ih =>
    have hc : c ≠ 0 := hnz c (List.mem_cons_self _ _)
    have hlen : (c :: s2).length = s2.length + 1 := rfl
    rw [hlen] at hm
    obtain ⟨k, rfl⟩ : ∃ k, m = k + 1 := ⟨m - 1, by omega⟩
    have ih2 := ih (P ++ [Val.byte c]) k (fun d hd => hnz d (List.mem_cons_of_mem _ hd))
      (by omega)
    have hset : (P ++ List.replicate (k + 1) Val.undef).set P.length (Val.byte c) =
        (P ++ [Val.byte c]) ++ List.replicate k Val.undef := by
      rw [List.set_append_right _ _ (le_refl _)]
      simp [List.replicate_succ]
    simp only [List.map_cons, List.cons_append]
    rw [copy_loop, if_neg hc, store_new0, if_pos (by simp), hset]
    simp only [Option.bind_eq_bind, Option.some_bind, ptrAdd_ptr]
    rw [show P.length + 1 = (P ++ [Val.byte c]).length by simp, ih2]
    simp [hlen, Nat.add_assoc, Nat.add_comm 1]

theorem cells_from_old (st : State) (p : Val) (s : List Nat) (E : List (List Val))
    (out : List Nat) (g : Glob → Val) (w : List Glob) (h : c_string st p = some s) :
    cells_from (State.mk (st.heap ++ E) out g w) p = cells_from st p := by
  unfold c_string at h
  cases p with
  | ptr b o =>
    unfold cells_from at h ⊢
    simp only [List.get?_eq_getElem?] at h ⊢
    cases hb : st.heap[b]? with
    | none => simp [hb, c_string_cells] at h
    | some blk =>
      have hlt : b < st.heap.length := by
        rcases List.getElem?_eq_some_iff.mp hb with ⟨hlt, _⟩; exact hlt
      rw [List.getElem?_append_left hlt, hb]
  | _ => simp [cells_from, c_string_cells] at h

theorem appendString_run (st : State) (self a b : Val) (as bs : List Nat)
    (ha : c_string st a = some as) (hb : c_string st b = some bs)
    (hfit : as.length + bs.length + 1 < 2 ^ SIZE_WIDTH) :
    appendString_declare_builtin self a b st = some (Val.ptr st.heap.length 0,
      State.mk (st.heap ++ [(as ++ bs).map Val.byte ++ [Val.byte 0]])
        st.out st.globals st.gwrites) := by
  obtain ⟨⟨ra, hca⟩, hnza⟩ := c_string_cells_split _ _ ha
  obtain ⟨⟨rb, hcb⟩, hnzb⟩ := c_string_cells_split _ _ hb
  have hsz : to_size (as.length + bs.length + 1) = as.length + bs.length + 1 :=
    to_size_of_lt _ hfit
  have hc1 := copy_loop_run as ra st.heap [] (as.length + bs.length + 1) st.out st.globals
    st.gwrites hnza (by omega)
  have hc2 := copy_loop_run bs rb st.heap (as.map Val.byte) (bs.length + 1) st.out st.globals
    st.gwrites hnzb (by omega)
  unfold appendString_declare_builtin
  simp only [malloc, malloc_struct, alloc, Option.bind_eq_bind]
  rw [hca, count_loop_run as ra 0 hnza (by omega)]
  simp only [Option.some_bind]
  rw [hcb, count_loop_run bs rb _ hnzb (by omega)]
  simp only [Option.some_bind, Nat.zero_add, hsz, Nat.div_one]
  rw [cells_from_old st a as _ _ _ _ ha, hca]
  simp only [List.nil_append, List.length_nil, Nat.zero_add] at hc1
  rw [hc1]
  simp only [Option.some_bind]
  rw [cells_from_old st b bs _ _ _ _ hb, hcb]
  have h1 : as.length + bs.length + 1 - as.length = bs.length + 1 := by omega
  simp only [List.length_map] at hc2
  rw [h1, hc2]
  simp only [Option.some_bind, store_new0]
  rw [if_pos (by simp)]
  simp

theorem c_string_old (st : State) (p : Val) (s : List Nat) (E : List (List Val))
    (out : List Nat) (g : Glob → Val) (w : List Glob) (h : c_string st p = some s) :
    c_string (State.mk (st.heap ++ E) out g w) p = some s := by
  unfold c_string
  rw [cells_from_old st p s E out g w h]
  exact h

theorem c_string_new (H : List (List Val)) (s : List Nat) (out : List Nat)
    (g : Glob → Val) (w : List Glob) (hnz : ∀ c, c ∈ s → c ≠ 0) :
    c_string (State.mk (H ++ [s.map Val.byte ++ [Val.byte 0]]) out g w)
      (Val.ptr H.length 0) = some s := by
  unfold c_string cells_from
  simp only [List.get?_eq_getElem?, get_new0, List.drop_zero]
  exact c_string_cells_join s [] hnz

/-- C6. For all NUL-terminated texts `a` (characters `as`) and `b` (characters
`bs`) whose joint length plus one fits `size_t`, `appendString_declare_builtin`
returns a NUL-terminated text whose characters are exactly those of `a` followed
by those of `b`, so its length is `len(a) + len(b)`; both inputs read as before. -/
theorem appendString_contract (st : State) (self a b : Val) (as bs : List Nat)
    (ha : c_string st a = some as) (hb : c_string st b = some bs)
    (hfit : as.length + bs.length + 1 < 2 ^ SIZE_WIDTH) :
    ∃ r st2 rs, appendString_declare_builtin self a b st = some (r, st2) ∧
      c_string st2 r = some rs ∧ rs = as ++ bs ∧ rs.length = as.length + bs.length ∧
      c_string st2 a = some as ∧ c_string st2 b = some bs := by
  have hnza := (c_string_cells_split _ _ ha).2
  have hnzb := (c_string_cells_split _ _ hb).2
  have hnz : ∀ c, c ∈ as ++ bs → c ≠ 0 := by
    intro c hc
    rcases List.mem_append.mp hc with h | h
    · exact hnza c h
    · exact hnzb c h
  exact ⟨_, _, as ++ bs, appendString_run st self a b as bs ha hb hfit,
    c_string_new st.heap (as ++ bs) st.out st.globals st.gwrites hnz, rfl,
    List.length_append as bs,
    c_string_old st a as _ _ _ _ ha, c_string_old st b bs _ _ _ _ hb⟩

/-- Witness of C6: `appendString("xyz", "abc")` is `"xyzabc"`, on the two
string literals of the program. -/
theorem appendString_contract_witness :
    c_string initial lit_xyz = some (bytes "xyz") ∧
    c_string initial lit_abc = some (bytes "abc") ∧
    (bytes "xyz").length + (bytes "abc").length + 1 < 2 ^ SIZE_WIDTH ∧
    bytes "xyz" ++ bytes "abc" = bytes "xyzabc" ∧
    ∃ r st2 rs, appendString_declare_builtin Val.null lit_xyz lit_abc initial = some (r, st2) ∧
      c_string st2 r = some rs ∧ rs = bytes "xyz" ++ bytes "abc" ∧
      rs.length = (bytes "xyz").length + (bytes "abc").length ∧
      c_string st2 lit_xyz = some (bytes "xyz") ∧ c_string st2 lit_abc = some (bytes "abc") :=
  ⟨by decide, by decide, by decide, by decide,
    appendString_contract initial Val.null lit_xyz lit_abc (bytes "xyz") (bytes "abc")
      (by decide) (by decide) (by decide)⟩

theorem create_run (st : State) :
    iface_ToString_inst_Pair_create st = some (Val.ptr st.heap.length 0,
      State.mk (st.heap ++ [[Val.fn Fn.iface_ToString_inst_Pair_method_str_impl]])
        st.out st.globals st.gwrites) := by
  unfold iface_ToString_inst_Pair_create
  simp only [malloc, malloc_struct, alloc, Nat.div_one, List.replicate, store_new0, Option.bind_eq_bind]
  rw [if_pos (by simp)]
  rfl

theorem call_appendString (k : Nat) (st : State) (self a b : Val) (as bs : List Nat)
    (ha : c_string st a = some as) (hb : c_string st b = some bs)
    (hfit : as.length + bs.length + 1 < 2 ^ SIZE_WIDTH) :
    call (k + 1) Fn.appendString_declare_builtin [self, a, b] st =
      Outcome.ret (Val.ptr st.heap.length 0)
        (State.mk (st.heap ++ [(as ++ bs).map Val.byte ++ [Val.byte 0]])
          st.out st.globals st.gwrites) := by
  have h := appendString_run st self a b as bs ha hb hfit
  simp only [call, arg, List.getD_cons_zero, List.getD_cons_succ, h, Outcome.ofOption]

theorem user_func_str_run (k : Nat) (st : State) (self p x y : Val) (xs ys : List Nat)
    (hlink : load st (st.globals Glob.r1001_appendString)
      = some (Val.fn Fn.appendString_declare_builtin))
    (hx : load st p = some x) (hy : load st (ptrAdd p 1) = some y)
    (hxs : c_string st x = some xs) (hys : c_string st y = some ys)
    (hfit : xs.length + ys.length + 1 < 2 ^ SIZE_WIDTH) :
    user_func_str (call (k + 1)) self p st =
      Outcome.ret (Val.ptr st.heap.length 0)
        (State.mk (st.heap ++ [(xs ++ ys).map Val.byte ++ [Val.byte 0]])
          st.out st.globals st.gwrites) := by
  unfold user_func_str call_func
  simp only [hx, hy, hlink]
  exact call_appendString k st _ x y xs ys hxs hys hfit

theorem impl_run (k : Nat) (st : State) (self p x y : Val) (xs ys : List Nat)
    (hlink : load st (st.globals Glob.r1001_appendString)
      = some (Val.fn Fn.appendString_declare_builtin))
    (hx : load st p = some x) (hy : load st (ptrAdd p 1) = some y)
    (hxs : c_string st x = some xs) (hys : c_string st y = some ys)
    (hfit : xs.length + ys.length + 1 < 2 ^ SIZE_WIDTH) :
    iface_ToString_inst_Pair_method_str_impl (call (k + 1)) self p st =
      Outcome.ret (Val.ptr st.heap.length 0)
        (State.mk (st.heap ++ [(xs ++ ys).map Val.byte ++ [Val.byte 0]])
          st.out st.globals st.gwrites) := by
  unfold iface_ToString_inst_Pair_method_str_impl call_func
  simp only [hx, hy, hlink]
  exact call_appendString k st _ x y xs ys hxs hys hfit

theorem extract_run (k : Nat) (st : State) (self w p x y : Val) (xs ys : List Nat)
    (hw : load st w = some (Val.fn Fn.iface_ToString_inst_Pair_method_str_impl))
    (hlink : load st (st.globals Glob.r1001_appendString)
      = some (Val.fn Fn.appendString_declare_builtin))
    (hx : load st p = some x) (hy : load st (ptrAdd p 1) = some y)
    (hxs : c_string st x = some xs) (hys : c_string st y = some ys)
    (hfit : xs.length + ys.length + 1 < 2 ^ SIZE_WIDTH) :
    iface_ToString_method_str_extract (call (k + 2)) self w p st =
      Outcome.ret (Val.ptr st.heap.length 0)
        (State.mk (st.heap ++ [(xs ++ ys).map Val.byte ++ [Val.byte 0]])
          st.out st.globals st.gwrites) := by
  unfold iface_ToString_method_str_extract call_func
  simp only [hw]
  have h := impl_run k st w p x y xs ys hlink hx hy hxs hys hfit
  simpa only [call, arg, List.getD_cons_zero, List.getD_cons_succ] using h

/-- C7. Witness dispatch is transparent. In a state where the slot
`r1001_appendString` is bound to `appendString_declare_builtin`, for every Pair
`p` whose fields `x` and `y` are texts: invoking `str` through the witness that
`iface_ToString_inst_Pair_create` builds returns a text with the same characters
as the direct call `user_func_str _ p`, namely those of
`appendString(p.x, p.y)`, the characters of `x` followed by those of `y`. -/
theorem dispatch_transparent (fuel : Nat) (st : State) (self self2 p x y : Val)
    (xs ys : List Nat) (hfuel : 2 ≤ fuel)
    (hlink : load st (st.globals Glob.r1001_appendString)
      = some (Val.fn Fn.appendString_declare_builtin))
    (hx : load st p = some x) (hy : load st (ptrAdd p 1) = some y)
    (hxs : c_string st x = some xs) (hys : c_string st y = some ys)
    (hfit : xs.length + ys.length + 1 < 2 ^ SIZE_WIDTH) :
    ∃ w st1 r1 st2 r2 st3 r3 st4,
      iface_ToString_inst_Pair_create st = some (w, st1) ∧
      iface_ToString_method_str_extract (call fuel) self w p st1 = Outcome.ret r1 st2 ∧
      user_func_str (call fuel) self2 p st = Outcome.ret r2 st3 ∧
      appendString_declare_builtin (st.globals Glob.r1001_appendString) x y st
        = some (r3, st4) ∧
      c_string st2 r1 = some (xs ++ ys) ∧
      c_string st3 r2 = some (xs ++ ys) ∧
      c_string st4 r3 = some (xs ++ ys) := by
  obtain ⟨k, rfl⟩ : ∃ k, fuel = k + 2 := ⟨fuel - 2, by omega⟩
  have hnza := (c_string_cells_split _ _ hxs).2
  have hnzb := (c_string_cells_split _ _ hys).2
  have hnz : ∀ c, c ∈ xs ++ ys → c ≠ 0 := by
    intro c hc
    rcases List.mem_append.mp hc with h | h
    · exact hnza c h
    · exact hnzb c h
  have hw : load (State.mk (st.heap ++ [[Val.fn Fn.iface_ToString_inst_Pair_method_str_impl]])
      st.out st.globals st.gwrites) (Val.ptr st.heap.length 0)
      = some (Val.fn Fn.iface_ToString_inst_Pair_method_str_impl) := by
    rw [load_new0]; rfl
  refine ⟨_, _, _, _, _, _, _, _, create_run st,
    extract_run k _ self _ p x y xs ys hw (load_old _ _ _ _ hlink) (load_old _ _ _ _ hx)
      (load_old _ _ _ _ hy) (c_string_old _ _ _ _ _ _ _ hxs) (c_string_old _ _ _ _ _ _ _ hys)
      hfit,
    user_func_str_run (k + 1) st self2 p x y xs ys hlink hx hy hxs hys hfit,
    appendString_run st _ x y xs ys hxs hys hfit, ?_, ?_, ?_⟩
  · exact c_string_new _ (xs ++ ys) _ _ _ hnz
  · exact c_string_new _ (xs ++ ys) _ _ _ hnz
  · exact c_string_new _ (xs ++ ys) _ _ _ hnz

/-- Witness of C7: the Pair `{x: "abc", y: "xyz"}` of `dispatch_sample`; both
calls return the text `abcxyz`. -/
theorem dispatch_transparent_witness :
    2 ≤ 2 ∧
    load dispatch_sample (dispatch_sample.globals Glob.r1001_appendString)
      = some (Val.fn Fn.appendString_declare_builtin) ∧
    load dispatch_sample (Val.ptr 3 0) = some lit_abc ∧
    load dispatch_sample (ptrAdd (Val.ptr 3 0) 1) = some lit_xyz ∧
    c_string dispatch_sample lit_abc = some (bytes "abc") ∧
    c_string dispatch_sample lit_xyz = some (bytes "xyz") ∧
    (bytes "abc").length + (bytes "xyz").length + 1 < 2 ^ SIZE_WIDTH ∧
    bytes "abc" ++ bytes "xyz" = bytes "abcxyz" ∧
    ∃ w st1 r1 st2 r2 st3 r3 st4,
      iface_ToString_inst_Pair_create dispatch_sample = some (w, st1) ∧
      iface_ToString_method_str_extract (call 2) Val.null w (Val.ptr 3 0) st1
        = Outcome.ret r1 st2 ∧
      user_func_str (call 2) Val.null (Val.ptr 3 0) dispatch_sample = Outcome.ret r2 st3 ∧
      appendString_declare_builtin (dispatch_sample.globals Glob.r1001_appendString)
        lit_abc lit_xyz dispatch_sample = some (r3, st4) ∧
      c_string st2 r1 = some (bytes "abc" ++ bytes "xyz") ∧
      c_string st3 r2 = some (bytes "abc" ++ bytes "xyz") ∧
      c_string st4 r3 = some (bytes "abc" ++ bytes "xyz") :=
  ⟨by decide, by decide, by decide, by decide, by decide, by decide, by decide, by decide,
    dispatch_transparent 2 dispatch_sample Val.null Val.null (Val.ptr 3 0) lit_abc lit_xyz
      (bytes "abc") (bytes "xyz") (by decide) (by decide) (by decide) (by decide)
      (by decide) (by decide) (by decide)⟩

/-- C8. Running the linked program (`main`: linkage, then the entry callable)
from the initial state, with fuel for its four nested calls, returns normally
with exit status 0 (so neither the out-of-bounds exit nor a fault is hit) and
standard output holds exactly the bytes of `abcxyz` and a newline. -/
theorem main_output (fuel : Nat) (hfuel : 4 ≤ fuel) :
    ∃ st, main fuel initial = Outcome.ret 0 st ∧ st.out = bytes "abcxyz\n" := by
  obtain ⟨k, rfl⟩ : ∃ k, fuel = k + 4 := ⟨fuel - 4, by omega⟩
  exact ⟨_, rfl, rfl⟩

/-- Witness of C8: fuel 4. -/
theorem main_output_witness :
    4 ≤ 4 ∧ ∃ st, main 4 initial = Outcome.ret 0 st ∧ st.out = bytes "abcxyz\n" :=
  ⟨by decide, main_output 4 (by decide)⟩

theorem isSeq_ext {st st2 : State} {p : Val} {xs : List Val} (E : List (List Val))
    (hh : st2.heap = st.heap ++ E) (h : IsSeq st p xs) : IsSeq st2 p xs := by
  obtain ⟨hb, hlen, items, hitems, hcells⟩ := h
  refine ⟨hb, load_ext E hh hlen, items, load_ext E hh hitems, ?_⟩
  intro i hi
  have hx : xs[i]? = some xs[i] := List.getElem?_eq_getElem hi
  rw [hx]
  exact load_ext E hh ((hcells i hi).trans hx)

theorem nil_run (st : State) :
    _make_bismuth_nil st = some (Val.ptr st.heap.length 0,
      State.mk (st.heap ++ [[Val.null, Val.size 0]]) st.out st.globals st.gwrites) := by
  unfold _make_bismuth_nil
  simp only [malloc, malloc_struct, alloc, cells_bismuth_vector, Nat.div_one, List.replicate, store_new0,
    Option.bind_eq_bind, ptrAdd_ptr]
  rw [if_pos (by simp)]
  simp only [Option.some_bind, List.set_cons_zero, store_new0]
  rw [if_pos (by simp)]
  rfl

theorem isSeq_nil (H : List (List Val)) (out : List Nat) (g : Glob → Val) (w : List Glob) :
    IsSeq (State.mk (H ++ [[Val.null, Val.size 0]]) out g w) (Val.ptr H.length 0) [] := by
  refine ⟨by simp, ?_, Val.null, ?_, ?_⟩
  · rw [ptrAdd_ptr, load_new0]; rfl
  · rw [load_new0]; rfl
  · intro i hi; simp at hi

theorem int_run (st : State) (value : Int) :
    _make_bismuth_int value st = some (Val.ptr st.heap.length 0,
      State.mk (st.heap ++ [[Val.int value]]) st.out st.globals st.gwrites) := by
  unfold _make_bismuth_int
  simp only [malloc, malloc_struct, alloc, Nat.div_one, List.replicate, store_new0, Option.bind_eq_bind]
  rw [if_pos (by simp)]
  rfl

theorem length_run (st : State) (self s : Val) (xs : List Val) (hs : IsSeq st s xs) :
    length_declare_builtin self s st = some (Val.ptr st.heap.length 0,
      State.mk (st.heap ++ [[Val.int (to_int xs.length)]]) st.out st.globals st.gwrites) := by
  unfold length_declare_builtin
  simp only [hs.2.1, Option.bind_eq_bind, Option.some_bind]
  exact int_run st _

theorem to_int_of_le (n : Nat) (h : (n : Int) ≤ INT_MAX) : to_int n = n := by
  unfold to_int
  simp only [INT_MAX, INT_WIDTH] at h ⊢
  omega

theorem built_isSeq {st : State} {s : Val} {xs : List Val} (h : Built st s xs) :
    (xs.length : Int) ≤ INT_MAX → IsSeq st s xs := by
  induction h with
  | nil st st2 s hrun =>
    intro _
    rw [nil_run] at hrun
    cases hrun
    exact isSeq_nil _ _ _ _
  | cons st st2 v t s xs _ hrun ih =>
    intro hle
    have hlen : (v :: xs).length = xs.length + 1 := rfl
    rw [hlen] at hle
    simp only [INT_MAX, INT_WIDTH] at hle ih
    have hfit : sizeof_ptr * (xs.length + 1) < 2 ^ SIZE_WIDTH := by
      simp only [sizeof_ptr, SIZE_WIDTH]; omega
    rw [cons_run st v t xs (ih (by omega)) hfit] at hrun
    cases hrun
    exact isSeq_new _ _ _ _ _ _ rfl (by simp only [SIZE_WIDTH]; omega)
  | snoc st st2 t v s xs _ hrun ih =>
    intro hle
    have hlen : (xs ++ [v]).length = xs.length + 1 := by simp
    rw [hlen] at hle
    simp only [INT_MAX, INT_WIDTH] at hle ih
    have hfit : sizeof_ptr * (xs.length + 1) < 2 ^ SIZE_WIDTH := by
      simp only [sizeof_ptr, SIZE_WIDTH]; omega
    rw [snoc_run st t v xs (ih (by omega)) hfit] at hrun
    cases hrun
    exact isSeq_new _ _ _ _ _ _ hlen (by simp only [SIZE_WIDTH]; omega)
  | concat st st2 self a b s xs ys _ _ hrun iha ihb =>
    intro hle
    have hlen : (xs ++ ys).length = xs.length + ys.length := by simp
    rw [hlen] at hle
    simp only [INT_MAX, INT_WIDTH] at hle iha ihb
    have hfit : sizeof_ptr * (xs.length + ys.length) < 2 ^ SIZE_WIDTH := by
      simp only [sizeof_ptr, SIZE_WIDTH]; omega
    rw [appendArray_run st self a b xs ys (iha (by omega)) (ihb (by omega)) hfit] at hrun
    cases hrun
    exact isSeq_new _ _ _ _ _ _ hlen (by simp only [SIZE_WIDTH]; omega)
  | keep st st2 s xs E _ hh ih =>
    intro hle
    exact isSeq_ext E hh (ih hle)

theorem cons_isSeq (st : State) (v s : Val) (xs : List Val) (hs : IsSeq st s xs)
    (hfit : sizeof_ptr * (xs.length + 1) < 2 ^ SIZE_WIDTH) :
    ∃ r st2, _make_bismuth_cons v s st = some (r, st2) ∧ IsSeq st2 r (v :: xs) :=
  ⟨_, _, cons_run st v s xs hs hfit,
    isSeq_new _ _ _ _ (v :: xs) (xs.length + 1) rfl (by unfold sizeof_ptr at hfit; omega)⟩

theorem appendArray_isSeq (st : State) (self a b : Val) (xs ys : List Val)
    (ha : IsSeq st a xs) (hb : IsSeq st b ys)
    (hfit : sizeof_ptr * (xs.length + ys.length) < 2 ^ SIZE_WIDTH) :
    ∃ r st2, appendArray_declare_builtin self a b st = some (r, st2) ∧
      IsSeq st2 r (xs ++ ys) :=
  ⟨_, _, appendArray_run st self a b xs ys ha hb hfit,
    isSeq_new _ _ _ _ (xs ++ ys) (xs.length + ys.length) (by simp)
      (by unfold sizeof_ptr at hfit; omega)⟩

theorem doubled_run (k : Nat) (hk : k ≤ 60) (st : State) :
    ∃ s st2, doubled k st = some (s, st2) ∧
      Built st2 s (List.replicate (2 ^ k) Val.null) ∧
      IsSeq st2 s (List.replicate (2 ^ k) Val.null) := by
  induction k with
  | zero =>
    have h1 := nil_run st
    obtain ⟨r, st3, h2, hs3⟩ := cons_isSeq _ _make_bismuth_unit _ []
      (isSeq_nil st.heap st.out st.globals st.gwrites) (by decide)
    refine ⟨r, st3, ?_, ?_, hs3⟩
    · unfold doubled
      rw [h1]
      exact h2
    · exact Built.cons _ _ _ _ _ [] (Built.nil _ _ _ h1) h2
  | succ k ih =>
    obtain ⟨s, st2, hrun, hbuilt, hs⟩ := ih (by omega)
    have hpow : 2 ^ k ≤ 2 ^ 59 := Nat.pow_le_pow_right (by decide) (by omega)
    have hlen : (List.replicate (2 ^ k) Val.null).length = 2 ^ k := by simp
    have hfit : sizeof_ptr * ((List.replicate (2 ^ k) Val.null).length +
        (List.replicate (2 ^ k) Val.null).length) < 2 ^ SIZE_WIDTH := by
      rw [hlen]; simp only [sizeof_ptr, SIZE_WIDTH]; omega
    have hrep : List.replicate (2 ^ k) Val.null ++ List.replicate (2 ^ k) Val.null
        = List.replicate (2 ^ (k + 1)) Val.null := by
      rw [List.append_replicate_replicate]; congr 1; omega
    obtain ⟨r, st3, h2, hs3⟩ := appendArray_isSeq st2 Val.null s s _ _ hs hs hfit
    rw [hrep] at hs3
    refine ⟨r, st3, ?_, ?_, hs3⟩
    · rw [doubled, hrun]
      exact h2
    · rw [← hrep]
      exact Built.concat _ _ _ _ _ _ _ _ hbuilt hbuilt h2

theorem length_wraps (st : State) (self s : Val) (xs : List Val) (hs : IsSeq st s xs)
    (hlen : xs.length = 2147483648) :
    ∃ r st2, length_declare_builtin self s st = some (r, st2) ∧
      load st2 r = some (Val.int (-2147483648)) := by
  have hval : to_int (xs.length : Nat) = -2147483648 := by
    rw [hlen]; decide
  refine ⟨_, _, length_run st self s xs hs, ?_⟩
  rw [load_new0, hval]
  rfl

/-- C9, as amended. For every sequence `s` obtained from `_make_bismuth_nil` by
any number of prepend, append and concat operations whose number of elements is
at most `INT_MAX`, `length_declare_builtin _ s` returns a boxed `int` whose value
is the number of elements of `s`. -/
theorem length_contract (st : State) (self s : Val) (xs : List Val)
    (hbuilt : Built st s xs) (hle : (xs.length : Int) ≤ INT_MAX) :
    ∃ r st2, length_declare_builtin self s st = some (r, st2) ∧
      load st2 r = some (Val.int xs.length) := by
  have hs := built_isSeq hbuilt hle
  refine ⟨_, _, length_run st self s xs hs, ?_⟩
  rw [load_new0, to_int_of_le _ hle]
  rfl

/-- Witness of C9 as amended: `length(empty()) = 0`, from the initial state. -/
theorem length_contract_witness :
    ∃ e st1, _make_bismuth_nil initial = some (e, st1) ∧ Built st1 e [] ∧
      (([] : List Val).length : Int) ≤ INT_MAX ∧
      ∃ r st2, length_declare_builtin Val.null e st1 = some (r, st2) ∧
        load st2 r = some (Val.int (([] : List Val).length : Nat)) :=
  ⟨_, _, rfl, Built.nil initial _ _ rfl, by decide,
    length_contract _ Val.null _ [] (Built.nil initial _ _ rfl) (by decide)⟩

/-- C9 as stated fails. The sequence `doubled 31 initial` is obtained from
`_make_bismuth_nil` by one prepend and 31 concats and has `2 ^ 31` elements;
`length_declare_builtin` returns the `int` `-2147483648` for it. -/
theorem length_truncates :
    ∃ s st r st2, doubled 31 initial = some (s, st) ∧
      Built st s (List.replicate (2 ^ 31) Val.null) ∧
      (List.replicate (2 ^ 31) Val.null).length = 2147483648 ∧
      length_declare_builtin Val.null s st = some (r, st2) ∧
      load st2 r = some (Val.int (-2147483648)) ∧
      load st2 r ≠ some (Val.int ((List.replicate (2 ^ 31) Val.null).length : Nat)) := by
  obtain ⟨s, st, hrun, hbuilt, hs⟩ := doubled_run 31 (by decide) initial
  have hlen : (List.replicate (2 ^ 31) Val.null).length = 2147483648 := by
    rw [List.length_replicate]; norm_num
  obtain ⟨r, st2, hr, hload⟩ := length_wraps st Val.null s _ hs hlen
  refine ⟨s, st, r, st2, hrun, hbuilt, hlen, hr, hload, ?_⟩
  rw [hload, hlen]
  decide

/-- C10. Prepend, append and concat do not mutate their input sequences: after
the call every cell readable before reads the same and each input still
represents the same elements; the result is a sequence (it represents the grown
list of elements) whose header and item array are newly allocated: both are
pointers into blocks that did not exist before the call, so the result is
distinct from the inputs and shares no storage with them. -/
theorem growth_allocates (st : State) (self v s a b : Val) (xs ys zs : List Val)
    (hs : IsSeq st s xs) (ha : IsSeq st a ys) (hb : IsSeq st b zs)
    (hfit1 : sizeof_ptr * (xs.length + 1) < 2 ^ SIZE_WIDTH)
    (hfit2 : sizeof_ptr * (ys.length + zs.length) < 2 ^ SIZE_WIDTH) :
    (∃ r st2 items, _make_bismuth_cons v s st = some (r, st2) ∧
      Unchanged st st2 ∧ IsSeq st2 s xs ∧ IsSeq st2 r (v :: xs) ∧
      NewObject st r ∧ load st2 r = some items ∧ NewObject st items ∧
      (∀ i, i < (v :: xs).length → load st2 (ptrAdd items i) = (v :: xs)[i]?) ∧
      r ≠ s) ∧
    (∃ r st2 items, _make_bismuth_snoc s v st = some (r, st2) ∧
      Unchanged st st2 ∧ IsSeq st2 s xs ∧ IsSeq st2 r (xs ++ [v]) ∧
      NewObject st r ∧ load st2 r = some items ∧ NewObject st items ∧
      (∀ i, i < (xs ++ [v]).length → load st2 (ptrAdd items i) = (xs ++ [v])[i]?) ∧
      r ≠ s) ∧
    (∃ r st2 items, appendArray_declare_builtin self a b st = some (r, st2) ∧
      Unchanged st st2 ∧ IsSeq st2 a ys ∧ IsSeq st2 b zs ∧ IsSeq st2 r (ys ++ zs) ∧
      NewObject st r ∧ load st2 r = some items ∧ NewObject st items ∧
      (∀ i, i < (ys ++ zs).length → load st2 (ptrAdd items i) = (ys ++ zs)[i]?) ∧
      r ≠ a ∧ r ≠ b) := by
  have hne : ∀ (t : Val) (ts : List Val), IsSeq st t ts → Val.ptr st.heap.length 0 ≠ t := by
    intro t ts ht heq
    have h1 := (newObject_length st 0).2 1
    rw [heq, ht.2.1] at h1
    cases h1
  have hnew1 : NewObject st (Val.ptr (st.heap.length + 1) 0) :=
    newObject_of_le st _ 0 (Nat.le_succ _)
  have hitems : ∀ (n : Nat) (ws : List Val) (i : Nat),
      load (State.mk (st.heap ++ [[Val.ptr (st.heap.length + 1) 0, Val.size n], ws])
        st.out st.globals st.gwrites) (ptrAdd (Val.ptr (st.heap.length + 1) 0) i)
        = ws[i]? := by
    intro n ws i
    rw [ptrAdd_ptr, load_new1, Nat.zero_add]
  have hb1 : xs.length + 1 < 2 ^ SIZE_WIDTH := by unfold sizeof_ptr at hfit1; omega
  have hb2 : ys.length + zs.length < 2 ^ SIZE_WIDTH := by unfold sizeof_ptr at hfit2; omega
  refine ⟨⟨_, _, _, cons_run st v s xs hs hfit1, unchanged_old _ _ _ _ _,
      isSeq_old _ _ _ _ hs,
      isSeq_new st.heap st.out st.globals st.gwrites (v :: xs) (xs.length + 1) rfl hb1,
      newObject_length st 0, ?_, hnew1, fun i _ => hitems _ _ i, hne s xs hs⟩,
    ⟨_, _, _, snoc_run st s v xs hs hfit1, unchanged_old _ _ _ _ _,
      isSeq_old _ _ _ _ hs,
      isSeq_new st.heap st.out st.globals st.gwrites (xs ++ [v]) (xs.length + 1)
        (by simp) hb1,
      newObject_length st 0, ?_, hnew1, fun i _ => hitems _ _ i, hne s xs hs⟩,
    ⟨_, _, _, appendArray_run st self a b ys zs ha hb hfit2, unchanged_old _ _ _ _ _,
      isSeq_old _ _ _ _ ha, isSeq_old _ _ _ _ hb,
      isSeq_new st.heap st.out st.globals st.gwrites (ys ++ zs) (ys.length + zs.length)
        (by simp) hb2,
      newObject_length st 0, ?_, hnew1, fun i _ => hitems _ _ i,
      hne a ys ha, hne b zs hb⟩⟩
  · rw [load_new0]; rfl
  · rw [load_new0]; rfl
  · rw [load_new0]; rfl

/-- Witness of C10: the two-element vector of `sample` as every input; the
results are evaluated: header in the new block 5, item array in the new block 6,
the five blocks of `sample` unchanged in front of them. -/
theorem growth_allocates_witness :
    IsSeq sample sample_vec [Val.ptr 0 0, Val.ptr 1 0] ∧
    sizeof_ptr * ([Val.ptr 0 0, Val.ptr 1 0].length + 1) < 2 ^ SIZE_WIDTH ∧
    sizeof_ptr * ([Val.ptr 0 0, Val.ptr 1 0].length + [Val.ptr 0 0, Val.ptr 1 0].length)
      < 2 ^ SIZE_WIDTH ∧
    (_make_bismuth_cons (Val.ptr 2 0) sample_vec sample).map (fun p => (p.1, p.2.heap)) =
      some (Val.ptr 5 0, sample.heap ++
        [[Val.ptr 6 0, Val.size 3], [Val.ptr 2 0, Val.ptr 0 0, Val.ptr 1 0]]) ∧
    (_make_bismuth_snoc sample_vec (Val.ptr 2 0) sample).map (fun p => (p.1, p.2.heap)) =
      some (Val.ptr 5 0, sample.heap ++
        [[Val.ptr 6 0, Val.size 3], [Val.ptr 0 0, Val.ptr 1 0, Val.ptr 2 0]]) ∧
    (appendArray_declare_builtin Val.null sample_vec sample_vec sample).map
        (fun p => (p.1, p.2.heap)) =
      some (Val.ptr 5 0, sample.heap ++
        [[Val.ptr 6 0, Val.size 4], [Val.ptr 0 0, Val.ptr 1 0, Val.ptr 0 0, Val.ptr 1 0]]) ∧
    (∃ r st2 items, _make_bismuth_cons (Val.ptr 2 0) sample_vec sample = some (r, st2) ∧
      Unchanged sample st2 ∧ IsSeq st2 sample_vec [Val.ptr 0 0, Val.ptr 1 0] ∧
      IsSeq st2 r (Val.ptr 2 0 :: [Val.ptr 0 0, Val.ptr 1 0]) ∧
      NewObject sample r ∧ load st2 r = some items ∧ NewObject sample items ∧
      (∀ i, i < (Val.ptr 2 0 :: [Val.ptr 0 0, Val.ptr 1 0]).length →
        load st2 (ptrAdd items i) = (Val.ptr 2 0 :: [Val.ptr 0 0, Val.ptr 1 0])[i]?) ∧
      r ≠ sample_vec) ∧
    (∃ r st2 items, _make_bismuth_snoc sample_vec (Val.ptr 2 0) sample = some (r, st2) ∧
      Unchanged sample st2 ∧ IsSeq st2 sample_vec [Val.ptr 0 0, Val.ptr 1 0] ∧
      IsSeq st2 r ([Val.ptr 0 0, Val.ptr 1 0] ++ [Val.ptr 2 0]) ∧
      NewObject sample r ∧ load st2 r = some items ∧ NewObject sample items ∧
      (∀ i, i < ([Val.ptr 0 0, Val.ptr 1 0] ++ [Val.ptr 2 0]).length →
        load st2 (ptrAdd items i) = ([Val.ptr 0 0, Val.ptr 1 0] ++ [Val.ptr 2 0])[i]?) ∧
      r ≠ sample_vec) ∧
    (∃ r st2 items, appendArray_declare_builtin Val.null sample_vec sample_vec sample
        = some (r, st2) ∧
      Unchanged sample st2 ∧ IsSeq st2 sample_vec [Val.ptr 0 0, Val.ptr 1 0] ∧
      IsSeq st2 sample_vec [Val.ptr 0 0, Val.ptr 1 0] ∧
      IsSeq st2 r ([Val.ptr 0 0, Val.ptr 1 0] ++ [Val.ptr 0 0, Val.ptr 1 0]) ∧
      NewObject sample r ∧ load st2 r = some items ∧ NewObject sample items ∧
      (∀ i, i < ([Val.ptr 0 0, Val.ptr 1 0] ++ [Val.ptr 0 0, Val.ptr 1 0]).length →
        load st2 (ptrAdd items i)
          = ([Val.ptr 0 0, Val.ptr 1 0] ++ [Val.ptr 0 0, Val.ptr 1 0])[i]?) ∧
      r ≠ sample_vec ∧ r ≠ sample_vec) :=
  have hs : IsSeq sample sample_vec [Val.ptr 0 0, Val.ptr 1 0] :=
    ⟨by decide, by decide, Val.ptr 4 0, by decide, by decide⟩
  ⟨hs, by decide, by decide, by decide, by decide, by decide,
    growth_allocates sample Val.null (Val.ptr 2 0) sample_vec sample_vec sample_vec
      [Val.ptr 0 0, Val.ptr 1 0] [Val.ptr 0 0, Val.ptr 1 0] [Val.ptr 0 0, Val.ptr 1 0]
      hs hs hs (by decide) (by decide)⟩

theorem bool_run (st : State) (value : Int) :
    _make_bismuth_bool value st = some (Val.ptr st.heap.length 0,
      State.mk (st.heap ++ [[Val.int value]]) st.out st.globals st.gwrites) := by
  unfold _make_bismuth_bool
  simp only [malloc_struct, alloc, List.replicate, store_new0, Option.bind_eq_bind]
  rw [if_pos (by simp)]
  rfl

theorem less_run (st : State) (self px py : Val) (x y : Int)
    (hx : load st px = some (Val.int x)) (hy : load st py = some (Val.int y)) :
    less_declare_builtin self px py st = some (Val.ptr st.heap.length 0,
      State.mk (st.heap ++ [[Val.int (if x < y then 1 else 0)]])
        st.out st.globals st.gwrites) := by
  unfold less_declare_builtin
  simp only [hx, hy, Option.bind_eq_bind, Option.some_bind]
  exact bool_run st _

theorem add_run (st : State) (self px py : Val) (x y : Int)
    (hx : load st px = some (Val.int x)) (hy : load st py = some (Val.int y)) :
    add_declare_builtin self px py st = some (Val.ptr st.heap.length 0,
      State.mk (st.heap ++ [[Val.int (to_int (x + y))]])
        st.out st.globals st.gwrites) := by
  unfold add_declare_builtin
  simp only [hx, hy, Option.bind_eq_bind, Option.some_bind]
  exact int_run st _

theorem to_int_isInt (n : Int) : IsInt (to_int n) := by
  unfold IsInt to_int
  simp only [INT_WIDTH]
  omega

theorem to_int_of_isInt (n : Int) (h : IsInt n) : to_int n = n := by
  unfold IsInt at h
  unfold to_int
  simp only [INT_WIDTH] at h ⊢
  omega

theorem to_int_congr (n : Int) : (to_int n - n) % 2 ^ INT_WIDTH = 0 := by
  unfold to_int
  simp only [INT_WIDTH]
  omega

/-- C11. For all `int`s `x` and `y` (given boxed), `less_declare_builtin _ x y`
returns a new boxed Bool whose value is true (1) exactly when `x < y` in the
signed order and false (0) otherwise. -/
theorem less_contract (st : State) (self px py : Val) (x y : Int)
    (hx : load st px = some (Val.int x)) (hy : load st py = some (Val.int y)) :
    ∃ r st2 b, less_declare_builtin self px py st = some (r, st2) ∧
      load st2 r = some (Val.int b) ∧
      (b = 1 ↔ x < y) ∧ (b = 0 ↔ ¬ x < y) := by
  refine ⟨_, _, if x < y then 1 else 0, less_run st self px py x y hx hy, ?_, ?_, ?_⟩
  · rw [load_new0]; rfl
  · by_cases h : x < y <;> simp [h]
  · by_cases h : x < y <;> simp [h]

/-- Witness of C11: `less(3, 5)` is true and `less(5, 3)` is false, on the
boxes of `int_sample`. -/
theorem less_contract_witness :
    load int_sample (Val.ptr 1 0) = some (Val.int 3) ∧
    load int_sample (Val.ptr 2 0) = some (Val.int 5) ∧
    (∃ r st2 b, less_declare_builtin Val.null (Val.ptr 1 0) (Val.ptr 2 0) int_sample
        = some (r, st2) ∧
      load st2 r = some (Val.int b) ∧ (b = 1 ↔ (3 : Int) < 5) ∧ (b = 0 ↔ ¬ (3 : Int) < 5)) ∧
    (∃ r st2 b, less_declare_builtin Val.null (Val.ptr 2 0) (Val.ptr 1 0) int_sample
        = some (r, st2) ∧
      load st2 r = some (Val.int b) ∧ (b = 1 ↔ (5 : Int) < 3) ∧ (b = 0 ↔ ¬ (5 : Int) < 3)) ∧
    (less_declare_builtin Val.null (Val.ptr 1 0) (Val.ptr 2 0) int_sample).bind
        (fun p => load p.2 p.1) = some (Val.int 1) ∧
    (less_declare_builtin Val.null (Val.ptr 2 0) (Val.ptr 1 0) int_sample).bind
        (fun p => load p.2 p.1) = some (Val.int 0) :=
  ⟨by decide, by decide,
    less_contract int_sample Val.null (Val.ptr 1 0) (Val.ptr 2 0) 3 5 (by decide) (by decide),
    less_contract int_sample Val.null (Val.ptr 2 0) (Val.ptr 1 0) 5 3 (by decide) (by decide),
    by decide, by decide⟩

/-- C12. For all `int`s `x` and `y` (given boxed), `add_declare_builtin _ x y`
returns a new boxed `int` `z` that lies in the range of `int` and is congruent
to `x + y` modulo `2 ^ 32` (two's-complement wraparound); `z` is the exact sum
whenever the sum lies in the range of `int`. -/
theorem add_contract (st : State) (self px py : Val) (x y : Int)
    (hx : load st px = some (Val.int x)) (hy : load st py = some (Val.int y)) :
    ∃ r st2 z, add_declare_builtin self px py st = some (r, st2) ∧
      load st2 r = some (Val.int z) ∧
      IsInt z ∧ (z - (x + y)) % 2 ^ INT_WIDTH = 0 ∧
      (IsInt (x + y) → z = x + y) := by
  refine ⟨_, _, to_int (x + y), add_run st self px py x y hx hy, ?_,
    to_int_isInt _, to_int_congr _, to_int_of_isInt _⟩
  rw [load_new0]; rfl

/-- Witness of C12: `add(2, 3)` is 5, on the boxes of `int_sample`. -/
theorem add_contract_witness :
    load int_sample (Val.ptr 0 0) = some (Val.int 2) ∧
    load int_sample (Val.ptr 1 0) = some (Val.int 3) ∧
    (add_declare_builtin Val.null (Val.ptr 0 0) (Val.ptr 1 0) int_sample).bind
        (fun p => load p.2 p.1) = some (Val.int 5) ∧
    ∃ r st2 z, add_declare_builtin Val.null (Val.ptr 0 0) (Val.ptr 1 0) int_sample
        = some (r, st2) ∧
      load st2 r = some (Val.int z) ∧
      IsInt z ∧ (z - (2 + 3)) % 2 ^ INT_WIDTH = 0 ∧
      (IsInt (2 + 3) → z = 2 + 3) :=
  ⟨by decide, by decide, by decide,
    add_contract int_sample Val.null (Val.ptr 0 0) (Val.ptr 1 0) 2 3 (by decide) (by decide)⟩

theorem print_run (st : State) (self line : Val) (s : List Nat)
    (hs : c_string st line = some s) :
    print_declare_builtin self line st = some (_make_bismuth_unit,
      State.mk st.heap (st.out ++ (s ++ bytes "\n")) st.globals st.gwrites) := by
  unfold print_declare_builtin
  simp only [hs, Option.bind_eq_bind, Option.some_bind]
  rfl

/-- C13. For every NUL-terminated text `line` (characters `s`) and every prior
content of standard output, `print_declare_builtin _ line` succeeds, leaves
standard output equal to the prior content followed by the characters of `line`
followed by exactly one newline (byte 10), changes nothing else, and returns the
Unit value, the null pointer that `_make_bismuth_unit` is. -/
theorem print_contract (st : State) (self line : Val) (s : List Nat)
    (hs : c_string st line = some s) :
    ∃ st2, print_declare_builtin self line st = some (_make_bismuth_unit, st2) ∧
      st2.out = st.out ++ s ++ [10] ∧
      st2.heap = st.heap ∧ st2.globals = st.globals ∧ st2.gwrites = st.gwrites ∧
      _make_bismuth_unit = Val.null := by
  refine ⟨_, print_run st self line s hs, ?_, rfl, rfl, rfl, rfl⟩
  show st.out ++ (s ++ bytes "\n") = st.out ++ s ++ [10]
  rw [List.append_assoc]
  rfl

/-- Witness of C13: printing the literal `abc` of the initial state. -/
theorem print_contract_witness :
    c_string initial lit_abc = some (bytes "abc") ∧
    ∃ st2, print_declare_builtin Val.null lit_abc initial = some (_make_bismuth_unit, st2) ∧
      st2.out = initial.out ++ bytes "abc" ++ [10] ∧
      st2.heap = initial.heap ∧ st2.globals = initial.globals ∧
      st2.gwrites = initial.gwrites ∧
      _make_bismuth_unit = Val.null :=
  ⟨by decide, print_contract initial Val.null lit_abc (bytes "abc") (by decide)⟩

/-- C14, as amended. Invoking the show built-in through a slot bound to
`show_declare_builtin` returns normally, for every argument list and in every
state: it returns the null pointer and leaves the state as it is. -/
theorem show_returns (st : State) (fuel : Nat) (args : List Val)
    (hslot : load st (st.globals Glob.r1014_show) = some (Val.fn Fn.show_declare_builtin)) :
    call_func (call (fuel + 1)) (st.globals Glob.r1014_show) args st
      = Outcome.ret Val.null st ∧
    show_declare_builtin st = some (Val.null, st) := by
  refine ⟨?_, rfl⟩
  unfold call_func
  simp only [hslot]
  rfl

/-- Witness of C14 as amended: the slot `r1014_show` after linkage, called with
one argument. -/
theorem show_returns_witness :
    ∃ st1, linkage initial = some st1 ∧
      load st1 (st1.globals Glob.r1014_show) = some (Val.fn Fn.show_declare_builtin) ∧
      call_func (call (0 + 1)) (st1.globals Glob.r1014_show) [lit_abc] st1
        = Outcome.ret Val.null st1 ∧
      show_declare_builtin st1 = some (Val.null, st1) :=
  ⟨_, rfl, rfl, show_returns _ 0 [lit_abc] rfl⟩

/-- C14 as stated fails: after linkage, invoking the callable of the slot
`r1014_show` with no argument returns the null pointer normally; the outcome is
not a fault. -/
theorem show_does_not_fail :
    ∃ st1, linkage initial = some st1 ∧
      load st1 (st1.globals Glob.r1014_show) = some (Val.fn Fn.show_declare_builtin) ∧
      call_func (call 1) (st1.globals Glob.r1014_show) [] st1 = Outcome.ret Val.null st1 ∧
      call_func (call 1) (st1.globals Glob.r1014_show) [] st1 ≠ Outcome.fault :=
  ⟨_, rfl, rfl, rfl, fun h => Outcome.noConfusion h⟩

/-- C15. Linkage completes before any user code runs. Running `main` from the
initial state: the linkage part, which makes no call, ends in a state `st1` in
which every callable slot of the program has been assigned exactly once and
holds a callable wrapping its own entry point; `main` then invokes the entry
callable of the slot `r1009_main` in `st1`, and in the state `st2` in which the
program ends the slots and the log of assignments are those of `st1`: no slot
is written after linkage. The `_bv_` variables of the prelude are never
assigned. -/
theorem linkage_before_entry (fuel : Nat) (hfuel : 4 ≤ fuel) :
    ∃ st1 v st2, linkage initial = some st1 ∧
      (∀ g f, entry_of g = some f →
        st1.gwrites.count g = 1 ∧ load st1 (st1.globals g) = some (Val.fn f)) ∧
      call_func (call fuel) (st1.globals Glob.r1009_main) [] st1 = Outcome.ret v st2 ∧
      main fuel initial = Outcome.ret 0 st2 ∧
      st2.gwrites = st1.gwrites ∧ st2.globals = st1.globals ∧
      (∀ g, entry_of g = none → st2.gwrites.count g = 0 ∧ st2.globals g = Val.null) := by
  obtain ⟨k, rfl⟩ : ∃ k, fuel = k + 4 := ⟨fuel - 4, by omega⟩
  refine ⟨_, _, _, rfl, ?_, rfl, rfl, rfl, rfl, ?_⟩
  · intro g f hg
    cases g <;> cases hg <;> exact ⟨rfl, rfl⟩
  · intro g hg
    cases g <;> cases hg <;> exact ⟨rfl, rfl⟩

/-- Witness of C15: fuel 4. -/
theorem linkage_before_entry_witness :
    4 ≤ 4 ∧
    ∃ st1 v st2, linkage initial = some st1 ∧
      (∀ g f, entry_of g = some f →
        st1.gwrites.count g = 1 ∧ load st1 (st1.globals g) = some (Val.fn f)) ∧
      call_func (call 4) (st1.globals Glob.r1009_main) [] st1 = Outcome.ret v st2 ∧
      main 4 initial = Outcome.ret 0 st2 ∧
      st2.gwrites = st1.gwrites ∧ st2.globals = st1.globals ∧
      (∀ g, entry_of g = none → st2.gwrites.count g = 0 ∧ st2.globals g = Val.null) :=
  ⟨by decide, linkage_before_entry 4 (by decide)⟩

theorem create_slot (st : State) :
    ∃ w st1, iface_ToString_inst_Pair_create st = some (w, st1) ∧
      load st1 w = some (Val.fn Fn.iface_ToString_inst_Pair_method_str_impl) := by
  refine ⟨_, _, create_run st, ?_⟩
  rw [load_new0]; rfl

/-- C16. Dispatch is a one-step lookup-then-call: for every witness `w` whose
`str` slot holds the implementation `f` and every argument `a`,
`iface_ToString_method_str_extract self w a` is the call `f(w, a)`, whatever
the receiver `self` is; the same holds when the method is itself invoked as a
callable; and the slot of the witness that `iface_ToString_inst_Pair_create`
returns holds `iface_ToString_inst_Pair_method_str_impl`. -/
theorem dispatch_one_step (fuel : Nat) (st : State) (self w a : Val) (f : Fn)
    (hw : load st w = some (Val.fn f)) :
    iface_ToString_method_str_extract (call fuel) self w a st = call fuel f [w, a] st ∧
    (∀ self2, iface_ToString_method_str_extract (call fuel) self2 w a st
      = iface_ToString_method_str_extract (call fuel) self w a st) ∧
    call (fuel + 1) Fn.iface_ToString_method_str_extract [self, w, a] st
      = call fuel f [w, a] st ∧
    ∃ w2 st1, iface_ToString_inst_Pair_create st = some (w2, st1) ∧
      load st1 w2 = some (Val.fn Fn.iface_ToString_inst_Pair_method_str_impl) := by
  have h : ∀ self2, iface_ToString_method_str_extract (call fuel) self2 w a st
      = call fuel f [w, a] st := by
    intro self2
    unfold iface_ToString_method_str_extract call_func
    simp only [hw]
  refine ⟨h self, fun self2 => (h self2).trans (h self).symm, ?_, create_slot st⟩
  rw [← h self]
  rfl

/-- Witness of C16: the witness record built in `dispatch_sample` (block 4)
and the Pair of that state. -/
theorem dispatch_one_step_witness :
    ∃ w st1, iface_ToString_inst_Pair_create dispatch_sample = some (w, st1) ∧
      load st1 w = some (Val.fn Fn.iface_ToString_inst_Pair_method_str_impl) ∧
      iface_ToString_method_str_extract (call 2) Val.null w (Val.ptr 3 0) st1
        = call 2 Fn.iface_ToString_inst_Pair_method_str_impl [w, Val.ptr 3 0] st1 ∧
      (∀ self2, iface_ToString_method_str_extract (call 2) self2 w (Val.ptr 3 0) st1
        = iface_ToString_method_str_extract (call 2) Val.null w (Val.ptr 3 0) st1) ∧
      call (2 + 1) Fn.iface_ToString_method_str_extract [Val.null, w, Val.ptr 3 0] st1
        = call 2 Fn.iface_ToString_inst_Pair_method_str_impl [w, Val.ptr 3 0] st1 ∧
      ∃ w2 st2, iface_ToString_inst_Pair_create st1 = some (w2, st2) ∧
        load st2 w2 = some (Val.fn Fn.iface_ToString_inst_Pair_method_str_impl) :=
  ⟨_, _, rfl, rfl,
    dispatch_one_step 2 _ Val.null _ (Val.ptr 3 0)
      Fn.iface_ToString_inst_Pair_method_str_impl rfl⟩

theorem lt_of_lt_to_int (n : Nat) (i : Int) (h0 : 0 ≤ i) (h : i < to_int n) :
    i.toNat < n := by
  unfold to_int at h
  simp only [INT_WIDTH] at h
  omega

/-- C17. Bounds-checked loops are safe: for every sequence `s` (elements `xs`)
and boxed `int` `i` with `i ≥ 0`, when `less(i, length(s))` returns true, where
`length(s)` is the boxed `int` that `length_declare_builtin` returns (the count
converted to `int`, truncated when it does not fit), `at_declare_builtin _ s i`
returns normally an element of `s`, the one at position `i`. -/
theorem bounds_checked_at (st : State) (self s ix : Val) (xs : List Val) (i : Int)
    (hs : IsSeq st s xs) (hix : load st ix = some (Val.int i)) (h0 : 0 ≤ i) :
    ∃ n st1 t st2 b, length_declare_builtin self s st = some (n, st1) ∧
      load st1 n = some (Val.int (to_int xs.length)) ∧
      less_declare_builtin self ix n st1 = some (t, st2) ∧
      load st2 t = some (Val.int b) ∧
      (b = 1 → ∃ x, x ∈ xs ∧ xs[i.toNat]? = some x ∧
        at_declare_builtin self s ix st2 = Outcome.ret x st2) := by
  have hn : load (State.mk (st.heap ++ [[Val.int (to_int xs.length)]])
      st.out st.globals st.gwrites) (Val.ptr st.heap.length 0)
      = some (Val.int (to_int xs.length)) := by
    rw [load_new0]; rfl
  have hless := less_run (State.mk (st.heap ++ [[Val.int (to_int xs.length)]])
      st.out st.globals st.gwrites) self ix (Val.ptr st.heap.length 0) i
      (to_int xs.length) (load_old _ _ _ _ hix) hn
  refine ⟨_, _, _, _, if i < to_int xs.length then 1 else 0,
    length_run st self s xs hs, hn, hless, ?_, ?_⟩
  · rw [load_new0]; rfl
  · intro hb
    have hlt : i < to_int xs.length := by
      by_contra hno
      rw [if_neg hno] at hb
      exact absurd hb (by decide)
    have hi : i.toNat < xs.length := lt_of_lt_to_int xs.length i h0 hlt
    have hs2 : IsSeq (State.mk ((st.heap ++ [[Val.int (to_int xs.length)]]) ++
        [[Val.int (if i < to_int xs.length then 1 else 0)]]) st.out st.globals st.gwrites)
        s xs := by
      rw [List.append_assoc]
      exact isSeq_old _ _ _ _ hs
    have hix2 : load (State.mk ((st.heap ++ [[Val.int (to_int xs.length)]]) ++
        [[Val.int (if i < to_int xs.length then 1 else 0)]]) st.out st.globals st.gwrites)
        ix = some (Val.int i) := by
      rw [List.append_assoc]
      exact load_old _ _ _ _ hix
    exact ⟨xs[i.toNat], List.getElem_mem _, List.getElem?_eq_getElem hi,
      at_ret _ self s ix _ xs i hs2 hix2 h0 (List.getElem?_eq_getElem hi)⟩

/-- Witness of C17: index 1 on the two-element vector of `sample`; the check
`less(1, length)` is true and `at` returns element 1. -/
theorem bounds_checked_at_witness :
    IsSeq sample sample_vec [Val.ptr 0 0, Val.ptr 1 0] ∧
    load sample (Val.ptr 1 0) = some (Val.int 1) ∧ (0 : Int) ≤ 1 ∧
    ((length_declare_builtin Val.null sample_vec sample).bind (fun p =>
        (less_declare_builtin Val.null (Val.ptr 1 0) p.1 p.2).bind (fun q =>
          load q.2 q.1)) = some (Val.int 1)) ∧
    ∃ n st1 t st2 b, length_declare_builtin Val.null sample_vec sample = some (n, st1) ∧
      load st1 n = some (Val.int (to_int ([Val.ptr 0 0, Val.ptr 1 0].length : Nat))) ∧
      less_declare_builtin Val.null (Val.ptr 1 0) n st1 = some (t, st2) ∧
      load st2 t = some (Val.int b) ∧
      (b = 1 → ∃ x, x ∈ [Val.ptr 0 0, Val.ptr 1 0] ∧
        [Val.ptr 0 0, Val.ptr 1 0][(1 : Int).toNat]? = some x ∧
        at_declare_builtin Val.null sample_vec (Val.ptr 1 0) st2 = Outcome.ret x st2) :=
  have hs : IsSeq sample sample_vec [Val.ptr 0 0, Val.ptr 1 0] :=
    ⟨by decide, by decide, Val.ptr 4 0, by decide, by decide⟩
  ⟨hs, by decide, by decide, by decide,
    bounds_checked_at sample Val.null sample_vec (Val.ptr 1 0) [Val.ptr 0 0, Val.ptr 1 0] 1
      hs (by decide) (by decide)⟩

theorem copy_loop_log_erase (cs : List Val) (o : Val) (st : State) (log : List Val) :
    (copy_loop_log cs o st log).map (fun r => (r.1, r.2.1)) = copy_loop cs o st := by
  induction cs generalizing o st log with
  | nil => rfl
  | cons v rest ih =>
    cases v with
    | byte ch =>
      rw [copy_loop_log, copy_loop]
      by_cases hc : ch = 0
      · simp only [if_pos hc, Option.map_some']
      · simp only [if_neg hc, Option.bind_eq_bind]
        cases hst : store st o (Val.byte ch) with
        | none => rfl
        | some st2 =>
          simp only [Option.some_bind]
          exact ih _ _ _
    | _ => rfl

theorem appendString_log_erase (self a b : Val) (st : State) :
    (appendString_log self a b st).map (fun r => (r.1, r.2.1))
      = appendString_declare_builtin self a b st := by
  unfold appendString_log appendString_declare_builtin
  simp only [Option.bind_eq_bind]
  cases h1 : count_loop (cells_from st a) 0 with
  | none => rfl
  | some n1 =>
    simp only [Option.some_bind]
    cases h2 : count_loop (cells_from st b) n1 with
    | none => rfl
    | some n2 =>
      simp only [Option.some_bind]
      rw [← copy_loop_log_erase (cells_from (malloc st (to_size (n2 + 1)) 1).2 a)
        (malloc st (to_size (n2 + 1)) 1).1 (malloc st (to_size (n2 + 1)) 1).2 []]
      cases h3 : copy_loop_log (cells_from (malloc st (to_size (n2 + 1)) 1).2 a)
          (malloc st (to_size (n2 + 1)) 1).1 (malloc st (to_size (n2 + 1)) 1).2 [] with
      | none => rfl
      | some r3 =>
        obtain ⟨o3, st3, log3⟩ := r3
        simp only [Option.some_bind, Option.map_some']
        rw [← copy_loop_log_erase (cells_from st3 b) o3 st3 log3]
        cases h4 : copy_loop_log (cells_from st3 b) o3 st3 log3 with
        | none => rfl
        | some r4 =>
          obtain ⟨o4, st4, log4⟩ := r4
          simp only [Option.some_bind, Option.map_some']
          cases h5 : store st4 o4 (Val.byte 0) with
          | none => rfl
          | some st5 => rfl

theorem copy_loop_log_run (s : List Nat) (rest : List Val) (H : List (List Val))
    (P : List Val) (m : Nat) (out : List Nat) (g : Glob → Val) (w : List Glob)
    (log : List Val) (hnz : ∀ c, c ∈ s → c ≠ 0) (hm : s.length ≤ m) :
    copy_loop_log (s.map Val.byte ++ Val.byte 0 :: rest) (Val.ptr H.length P.length)
        (State.mk (H ++ [P ++ List.replicate m Val.undef]) out g w) log =
      some (Val.ptr H.length (P.length + s.length),
        State.mk (H ++ [P ++ s.map Val.byte ++ List.replicate (m - s.length) Val.undef])
          out g w,
        log ++ (List.range s.length).map (fun k => Val.ptr H.length (P.length + k))) := by
  induction s generalizing P m log with
  | nil => simp [copy_loop_log]
  | cons c s2 ih =>
    have hc : c ≠ 0 := hnz c (List.mem_cons_self _ _)
    have hlen : (c :: s2).length = s2.length + 1 := rfl
    rw [hlen] at hm
    obtain ⟨k, rfl⟩ : ∃ k, m = k + 1 := ⟨m - 1, by omega⟩
    have ih2 := ih (P ++ [Val.byte c]) k (log ++ [Val.ptr H.length P.length])
      (fun d hd => hnz d (List.mem_cons_of_mem _ hd)) (by omega)
    have hset : (P ++ List.replicate (k + 1) Val.undef).set P.length (Val.byte c) =
        (P ++ [Val.byte c]) ++ List.replicate k Val.undef := by
      rw [List.set_append_right _ _ (le_refl _)]
      simp [List.replicate_succ]
    simp only [List.map_cons, List.cons_append]
    rw [copy_loop_log, if_neg hc, store_new0, if_pos (by simp), hset]
    simp only [Option.bind_eq_bind, Option.some_bind, ptrAdd_ptr]
    rw [show P.length + 1 = (P ++ [Val.byte c]).length by simp, ih2, hlen,
      List.range_succ_eq_map]
    simp [Nat.add_assoc, Nat.add_comm 1, Function.comp_def]

theorem appendString_log_run (st : State) (self a b : Val) (as bs : List Nat)
    (ha : c_string st a = some as) (hb : c_string st b = some bs)
    (hfit : as.length + bs.length + 1 < 2 ^ SIZE_WIDTH) :
    appendString_log self a b st = some (Val.ptr st.heap.length 0,
      State.mk (st.heap ++ [(as ++ bs).map Val.byte ++ [Val.byte 0]])
        st.out st.globals st.gwrites,
      (List.range (as.length + bs.length + 1)).map (fun k => Val.ptr st.heap.length k)) := by
  obtain ⟨⟨ra, hca⟩, hnza⟩ := c_string_cells_split _ _ ha
  obtain ⟨⟨rb, hcb⟩, hnzb⟩ := c_string_cells_split _ _ hb
  have hsz : to_size (as.length + bs.length + 1) = as.length + bs.length + 1 :=
    to_size_of_lt _ hfit
  have hc1 := copy_loop_log_run as ra st.heap [] (as.length + bs.length + 1) st.out
    st.globals st.gwrites [] hnza (by omega)
  have hc2 := copy_loop_log_run bs rb st.heap (as.map Val.byte) (bs.length + 1) st.out
    st.globals st.gwrites
    ((List.range as.length).map (fun k => Val.ptr st.heap.length k))
    hnzb (by omega)
  unfold appendString_log
  simp only [malloc, malloc_struct, alloc, Option.bind_eq_bind]
  rw [hca, count_loop_run as ra 0 hnza (by omega)]
  simp only [Option.some_bind]
  rw [hcb, count_loop_run bs rb _ hnzb (by omega)]
  simp only [Option.some_bind, Nat.zero_add, hsz, Nat.div_one]
  rw [cells_from_old st a as _ _ _ _ ha, hca]
  simp only [List.nil_append, List.length_nil, Nat.zero_add] at hc1
  rw [hc1]
  simp only [Option.some_bind]
  rw [cells_from_old st b bs _ _ _ _ hb, hcb]
  have h1 : as.length + bs.length + 1 - as.length = bs.length + 1 := by omega
  simp only [List.length_map] at hc2
  rw [h1, hc2]
  simp only [Option.some_bind, store_new0]
  rw [if_pos (by simp)]
  have hlog : (List.range as.length).map (fun k => Val.ptr st.heap.length k) ++
      (List.range bs.length).map (fun k => Val.ptr st.heap.length (as.length + k)) ++
      [Val.ptr st.heap.length (as.length + bs.length)] =
      (List.range (as.length + bs.length + 1)).map (fun k => Val.ptr st.heap.length k) := by
    rw [List.range_succ, List.range_add]
    simp [Function.comp_def]
  simp only [Option.pure_def, Option.bind_eq_bind, Option.some_bind, hlog]
  simp

/-- C18. `appendString_declare_builtin` never writes outside its buffer: for
all NUL-terminated texts `a` and `b` whose joint length plus one fits `size_t`
the call returns; it extends the heap by one block, the buffer, of
`len(a) + len(b) + 1` bytes and leaves every other block as it was; its stores,
in order, go to positions `0, 1, ..., len(a) + len(b)` of the buffer, each
position once; the last byte written is the NUL and none of the earlier ones is,
so the result is a NUL-terminated text. -/
theorem appendString_in_bounds (st : State) (self a b : Val) (as bs : List Nat)
    (ha : c_string st a = some as) (hb : c_string st b = some bs)
    (hfit : as.length + bs.length + 1 < 2 ^ SIZE_WIDTH) :
    ∃ r st2 log buf,
      appendString_declare_builtin self a b st = some (r, st2) ∧
      appendString_log self a b st = some (r, st2, log) ∧
      r = Val.ptr st.heap.length 0 ∧ st2.heap = st.heap ++ [buf] ∧
      buf.length = as.length + bs.length + 1 ∧
      log = (List.range (as.length + bs.length + 1)).map (fun k => ptrAdd r k) ∧
      buf[as.length + bs.length]? = some (Val.byte 0) ∧
      (∀ k, k < as.length + bs.length → ∃ c, buf[k]? = some (Val.byte c) ∧ c ≠ 0) ∧
      c_string st2 r = some (as ++ bs) := by
  have hnza := (c_string_cells_split _ _ ha).2
  have hnzb := (c_string_cells_split _ _ hb).2
  have hnz : ∀ c, c ∈ as ++ bs → c ≠ 0 := by
    intro c hc
    rcases List.mem_append.mp hc with h | h
    · exact hnza c h
    · exact hnzb c h
  have hlen : ((as ++ bs).map Val.byte).length = as.length + bs.length := by simp
  refine ⟨_, _, _, (as ++ bs).map Val.byte ++ [Val.byte 0],
    appendString_run st self a b as bs ha hb hfit,
    appendString_log_run st self a b as bs ha hb hfit, rfl, rfl, ?_, ?_, ?_, ?_,
    c_string_new st.heap (as ++ bs) st.out st.globals st.gwrites hnz⟩
  · rw [List.length_append, hlen]; rfl
  · apply List.map_congr_left
    intro k _
    rw [ptrAdd_ptr, Nat.zero_add]
  · rw [List.getElem?_append_right (by rw [hlen]), hlen, Nat.sub_self]
    rfl
  · intro k hk
    have hk2 : k < (as ++ bs).length := by simpa using hk
    refine ⟨(as ++ bs)[k], ?_, hnz _ (List.getElem_mem _)⟩
    rw [List.getElem?_append_left (by rw [hlen]; exact hk), List.getElem?_map,
      List.getElem?_eq_getElem hk2]
    rfl

/-- Witness of C18: `appendString("xyz", "abc")` on the literals of the
initial state; the seven stores go to cells 0 to 6 of the new block 2. -/
theorem appendString_in_bounds_witness :
    c_string initial lit_xyz = some (bytes "xyz") ∧
    c_string initial lit_abc = some (bytes "abc") ∧
    (bytes "xyz").length + (bytes "abc").length + 1 < 2 ^ SIZE_WIDTH ∧
    (appendString_log Val.null lit_xyz lit_abc initial).map (fun p => p.2.2)
      = some [Val.ptr 2 0, Val.ptr 2 1, Val.ptr 2 2, Val.ptr 2 3, Val.ptr 2 4,
          Val.ptr 2 5, Val.ptr 2 6] ∧
    ∃ r st2 log buf,
      appendString_declare_builtin Val.null lit_xyz lit_abc initial = some (r, st2) ∧
      appendString_log Val.null lit_xyz lit_abc initial = some (r, st2, log) ∧
      r = Val.ptr initial.heap.length 0 ∧ st2.heap = initial.heap ++ [buf] ∧
      buf.length = (bytes "xyz").length + (bytes "abc").length + 1 ∧
      log = (List.range ((bytes "xyz").length + (bytes "abc").length + 1)).map
        (fun k => ptrAdd r k) ∧
      buf[(bytes "xyz").length + (bytes "abc").length]? = some (Val.byte 0) ∧
      (∀ k, k < (bytes "xyz").length + (bytes "abc").length →
        ∃ c, buf[k]? = some (Val.byte c) ∧ c ≠ 0) ∧
      c_string st2 r = some (bytes "xyz" ++ bytes "abc") :=
  ⟨by decide, by decide, by decide, by decide,
    appendString_in_bounds initial Val.null lit_xyz lit_abc (bytes "xyz") (bytes "abc")
      (by decide) (by decide) (by decide)⟩

theorem snoc_isSeq (st : State) (s v : Val) (xs : List Val) (hs : IsSeq st s xs)
    (hfit : sizeof_ptr * (xs.length + 1) < 2 ^ SIZE_WIDTH) :
    ∃ r st2, _make_bismuth_snoc s v st = some (r, st2) ∧ IsSeq st2 r (xs ++ [v]) :=
  ⟨_, _, snoc_run st s v xs hs hfit,
    isSeq_new _ _ _ _ (xs ++ [v]) (xs.length + 1) (by simp)
      (by unfold sizeof_ptr at hfit; omega)⟩

/-- C19. Prepend and append are the one-element cases of concat and commute
with each other. For every sequence `s` (elements `xs`) with room for two more
elements, values `u`, `v` and one-element sequences `[u]`, `[v]`:
`_make_bismuth_cons u s` and the concat of `[u]` with `s` represent the same
elements (hence the same length), `_make_bismuth_snoc s v` and the concat of `s`
with `[v]` do, and `_make_bismuth_cons u (_make_bismuth_snoc s v)` and
`_make_bismuth_snoc (_make_bismuth_cons u s) v` do. -/
theorem cons_snoc_concat (st : State) (self u v s su sv : Val) (xs : List Val)
    (hs : IsSeq st s xs) (hu : IsSeq st su [u]) (hv : IsSeq st sv [v])
    (hfit : sizeof_ptr * (xs.length + 2) < 2 ^ SIZE_WIDTH) :
    (∃ r1 st1 r2 st2 zs, _make_bismuth_cons u s st = some (r1, st1) ∧
      appendArray_declare_builtin self su s st = some (r2, st2) ∧
      IsSeq st1 r1 zs ∧ IsSeq st2 r2 zs ∧ zs = u :: xs) ∧
    (∃ r1 st1 r2 st2 zs, _make_bismuth_snoc s v st = some (r1, st1) ∧
      appendArray_declare_builtin self s sv st = some (r2, st2) ∧
      IsSeq st1 r1 zs ∧ IsSeq st2 r2 zs ∧ zs = xs ++ [v]) ∧
    (∃ t1 st1 r1 st2 t2 st3 r2 st4 zs,
      _make_bismuth_snoc s v st = some (t1, st1) ∧
      _make_bismuth_cons u t1 st1 = some (r1, st2) ∧
      _make_bismuth_cons u s st = some (t2, st3) ∧
      _make_bismuth_snoc t2 v st3 = some (r2, st4) ∧
      IsSeq st2 r1 zs ∧ IsSeq st4 r2 zs ∧ zs = u :: (xs ++ [v])) := by
  have hfit1 : sizeof_ptr * (xs.length + 1) < 2 ^ SIZE_WIDTH := by
    unfold sizeof_ptr at hfit ⊢; omega
  obtain ⟨c, stc, hc, hcs⟩ := cons_isSeq st u s xs hs hfit1
  obtain ⟨a, sta, hrun_a, has⟩ := snoc_isSeq st s v xs hs hfit1
  refine ⟨?_, ?_, ?_⟩
  · obtain ⟨r2, st2, h2, hs2⟩ := appendArray_isSeq st self su s [u] xs hu hs
      (by simpa [Nat.add_comm] using hfit1)
    exact ⟨c, stc, r2, st2, u :: xs, hc, h2, hcs, hs2, rfl⟩
  · obtain ⟨r2, st2, h2, hs2⟩ := appendArray_isSeq st self s sv xs [v] hs hv
      (by simpa using hfit1)
    exact ⟨a, sta, r2, st2, xs ++ [v], hrun_a, h2, has, hs2, rfl⟩
  · obtain ⟨r1, st2, h1, hs1⟩ := cons_isSeq sta u a (xs ++ [v]) has
      (by simpa [Nat.add_assoc] using hfit)
    obtain ⟨r2, st4, h2, hs2⟩ := snoc_isSeq stc c v (u :: xs) hcs
      (by simpa [Nat.add_assoc] using hfit)
    exact ⟨a, sta, r1, st2, c, stc, r2, st4, u :: (xs ++ [v]), hrun_a, h1, hc, h2, hs1,
      hs2, rfl⟩

/-- Witness of C19: the two-element vector and the two one-element vectors of
`algebra_sample`. -/
theorem cons_snoc_concat_witness :
    IsSeq algebra_sample sample_vec [Val.ptr 0 0, Val.ptr 1 0] ∧
    IsSeq algebra_sample (Val.ptr 5 0) [Val.ptr 2 0] ∧
    IsSeq algebra_sample (Val.ptr 7 0) [Val.ptr 1 0] ∧
    sizeof_ptr * ([Val.ptr 0 0, Val.ptr 1 0].length + 2) < 2 ^ SIZE_WIDTH ∧
    (∃ r1 st1 r2 st2 zs,
      _make_bismuth_cons (Val.ptr 2 0) sample_vec algebra_sample = some (r1, st1) ∧
      appendArray_declare_builtin Val.null (Val.ptr 5 0) sample_vec algebra_sample
        = some (r2, st2) ∧
      IsSeq st1 r1 zs ∧ IsSeq st2 r2 zs ∧ zs = Val.ptr 2 0 :: [Val.ptr 0 0, Val.ptr 1 0]) ∧
    (∃ r1 st1 r2 st2 zs,
      _make_bismuth_snoc sample_vec (Val.ptr 1 0) algebra_sample = some (r1, st1) ∧
      appendArray_declare_builtin Val.null sample_vec (Val.ptr 7 0) algebra_sample
        = some (r2, st2) ∧
      IsSeq st1 r1 zs ∧ IsSeq st2 r2 zs ∧ zs = [Val.ptr 0 0, Val.ptr 1 0] ++ [Val.ptr 1 0]) ∧
    (∃ t1 st1 r1 st2 t2 st3 r2 st4 zs,
      _make_bismuth_snoc sample_vec (Val.ptr 1 0) algebra_sample = some (t1, st1) ∧
      _make_bismuth_cons (Val.ptr 2 0) t1 st1 = some (r1, st2) ∧
      _make_bismuth_cons (Val.ptr 2 0) sample_vec algebra_sample = some (t2, st3) ∧
      _make_bismuth_snoc t2 (Val.ptr 1 0) st3 = some (r2, st4) ∧
      IsSeq st2 r1 zs ∧ IsSeq st4 r2 zs ∧
      zs = Val.ptr 2 0 :: ([Val.ptr 0 0, Val.ptr 1 0] ++ [Val.ptr 1 0])) :=
  have hs : IsSeq algebra_sample sample_vec [Val.ptr 0 0, Val.ptr 1 0] :=
    ⟨by decide, by decide, Val.ptr 4 0, by decide, by decide⟩
  have hu : IsSeq algebra_sample (Val.ptr 5 0) [Val.ptr 2 0] :=
    ⟨by decide, by decide, Val.ptr 6 0, by decide, by decide⟩
  have hv : IsSeq algebra_sample (Val.ptr 7 0) [Val.ptr 1 0] :=
    ⟨by decide, by decide, Val.ptr 8 0, by decide, by decide⟩
  ⟨hs, hu, hv, by decide,
    cons_snoc_concat algebra_sample Val.null (Val.ptr 2 0) (Val.ptr 1 0) sample_vec
      (Val.ptr 5 0) (Val.ptr 7 0) [Val.ptr 0 0, Val.ptr 1 0] hs hu hv (by decide)⟩

end Bismuth
